import Mathlib

/-!
Verification of the queue-based RPC correlation engine and admission funnel
of faast.js (savil/faast.js), as found in src/src/aws/aws-cloudify.ts.

The staged source file contains two generations of the AWS adapter:
the first (lines 1-558) holds the inline correlation engine
(`enqueueCallRequest`, `resultCollector`, `startResultCollectorIfNeeded`,
`cloudifyWithResponse`, `cancelWithoutCleanup`); the second (lines 559-1710)
holds `pollAWSRequest`, `collectGarbage` and the `stop` wrapper that
delegates to the external `cloudqueue` module.

The embedding below translates those functions into pure Lean definitions:
JavaScript objects keyed by CallId become association lists, externally
resolvable promises (deferreds) become an explicit `DeferredState`, and the
interleaving of the caller coroutine, the background result collector and
the drain path becomes a small-step transition relation `Step` on a system
state `Sys`.  JS promise semantics are kept: resolving or rejecting an
already settled deferred is a no-op, and each `await` is a suspension point
at which other tasks may run.
-/

/-! ## Association-list primitives (JS objects keyed by CallId / deferred id) -/

/-- Lookup in an association list, first binding wins (JS object access). -/
def alookup {κ α : Type} [DecidableEq κ] : List (κ × α) → κ → Option α
  | [], _ => none
  | p :: rest, k => if p.1 = k then some p.2 else alookup rest k

/-- Removal of a key (JS `delete obj[k]`). -/
def aerase {κ α : Type} [DecidableEq κ] (l : List (κ × α)) (k : κ) : List (κ × α) :=
  l.filter (fun p => p.1 ≠ k)

/-- Update the value bound to a key, leaving other bindings alone. -/
def aupdate {κ α : Type} [DecidableEq κ] (l : List (κ × α)) (k : κ) (f : α → α) :
    List (κ × α) :=
  l.map (fun p => if p.1 = k then (p.1, f p.2) else p)

/-- Assignment `obj[k] = v`: overwrite when the key exists, append otherwise
(JS objects keep insertion order). -/
def ainsert {κ α : Type} [DecidableEq κ] (l : List (κ × α)) (k : κ) (v : α) :
    List (κ × α) :=
  if (alookup l k).isSome then aupdate l k (fun _ => v) else l ++ [(k, v)]

/-! ## Data model of the engine (first-generation aws-cloudify.ts) -/

/-- Parsed body of a response message (`FunctionReturn` from ../shared):
the correlation key plus the payload fields the engine passes through
untouched (`type` is "returned" or "error", `value` the serialized value). -/
structure FunctionReturn where
  CallId : String
  retType : String
  value : String
deriving DecidableEq, Repr

/-- State of one externally resolvable deferred (the `Deferred<T>` pattern):
a JS promise settles at most once, so resolve/reject on a settled deferred
leaves it unchanged. -/
inductive DeferredState
  | pending
  | resolved (ret : FunctionReturn)
  | rejected (err : String)
deriving DecidableEq, Repr

/-- `promise.resolve(...)` : only a pending deferred moves to resolved. -/
def settleResolve (st : DeferredState) (ret : FunctionReturn) : DeferredState :=
  match st with
  | .pending => .resolved ret
  | st => st

/-- `promise.reject(...)` : only a pending deferred moves to rejected. -/
def settleReject (st : DeferredState) (err : String) : DeferredState :=
  match st with
  | .pending => .rejected err
  | st => st

def resolveDeferred (ds : List (Nat × DeferredState)) (i : Nat) (ret : FunctionReturn) :
    List (Nat × DeferredState) :=
  aupdate ds i (fun st => settleResolve st ret)

def rejectDeferred (ds : List (Nat × DeferredState)) (i : Nat) (err : String) :
    List (Nat × DeferredState) :=
  aupdate ds i (fun st => settleReject st err)

/-- The queue-relevant part of the adapter `State`:
`callResultPromises` is the pending table (CallId to deferred id),
`deferreds` records every deferred ever created together with its status,
`resultCollectorPromise` whether the field of that name is set. -/
structure EngineState where
  callResultPromises : List (String × Nat)
  deferreds : List (Nat × DeferredState)
  nextId : Nat
  resultCollectorPromise : Bool
deriving DecidableEq, Repr

/-- `startResultCollectorIfNeeded(state)`: start a collector exactly when the
table is non-empty and no collector promise is set.  The Bool reports
whether a new collector was started. -/
def startResultCollectorIfNeeded (e : EngineState) : EngineState × Bool :=
  if ¬ e.callResultPromises.isEmpty ∧ ¬ e.resultCollectorPromise then
    ({ e with resultCollectorPromise := true }, true)
  else (e, false)

/-- `enqueueCallRequest(state, CallId)`: create a fresh pending deferred,
store it in the table under CallId, then `startResultCollectorIfNeeded`.
Returns the deferred's id and whether a collector was started. -/
def enqueueCallRequest (e : EngineState) (CallId : String) : EngineState × Nat × Bool :=
  let id := e.nextId
  let e1 : EngineState :=
    { e with
      deferreds := e.deferreds ++ [(id, .pending)]
      callResultPromises := ainsert e.callResultPromises CallId id
      nextId := id + 1 }
  let r := startResultCollectorIfNeeded e1
  (r.1, id, r.2)

/-- A raw SQS message: `Body` is the parsed `FunctionReturn`, or none when
the message has no body (the `if (Body)` guard in the collector). -/
structure SqsMessage where
  Body : Option FunctionReturn
deriving DecidableEq, Repr

/-- What the poll loop does with a processed message.  The source only ever
acknowledges (it calls `sqs.deleteMessage` for every message); the
dead-letter constructor exists so the spec's claimed behaviour is statable. -/
inductive Disposition
  | acked
  | deadLettered
deriving DecidableEq, Repr

/-- One iteration of the `for (const { Body, ReceiptHandle } of Messages)`
body in `resultCollector`: parse the body, look the CallId up, delete the
table entry, resolve the deferred when one was found (only a log line
otherwise), and delete the message from the queue in every case. -/
def processMessage (e : EngineState) (m : SqsMessage) : EngineState × Disposition :=
  match m.Body with
  | none => (e, .acked)
  | some ret =>
    let promise := alookup e.callResultPromises ret.CallId
    let e1 : EngineState :=
      { e with callResultPromises := aerase e.callResultPromises ret.CallId }
    match promise with
    | none => (e1, .acked)
    | some id => ({ e1 with deferreds := resolveDeferred e1.deferreds id ret }, .acked)

/-- Process a received batch in delivery order. -/
def processBatch (e : EngineState) : List SqsMessage → EngineState × List Disposition
  | [] => (e, [])
  | m :: rest =>
    let r := processMessage e m
    let r2 := processBatch r.1 rest
    (r2.1, r.2 :: r2.2)

/-- The error message `cancelWithoutCleanup` rejects outstanding calls with. -/
def cancellationMessage : String := "Call to cloud function cancelled in cleanup"

/-- The synchronous part of `cancelWithoutCleanup(state)`: take the table,
replace it by the empty object, and reject every deferred that was in it
with the cancellation error. -/
def cancelClear (e : EngineState) : EngineState :=
  let entries := e.callResultPromises
  let e1 : EngineState := { e with callResultPromises := [] }
  { e1 with
    deferreds := entries.foldl (fun ds p => rejectDeferred ds p.2 cancellationMessage)
      e1.deferreds }

/-! ## pollAWSRequest (second-generation aws-cloudify.ts, lines 768-791)

`pollAWSRequest(n, description, fn)` makes up to `n - 1` quiet attempts
(failures swallowed by `quietly`), sleeping `duration` ms after each failed
attempt, where `duration` starts at 1000 and grows by 1000 per attempt until
it reaches 5000; the final attempt re-throws the underlying error unchanged.
The embedding returns the list of sleep durations together with the result;
the oracle `attempt i` is the outcome of the i-th quiet attempt. -/

/-- The duration update `if (duration < 5000) duration += 1000`. -/
def pollDelayStep (d : Nat) : Nat := if d < 5000 then d + 1000 else d

/-- The `for (let i = 1; i < n; i++)` loop of `pollAWSRequest`, with
`remaining` iterations left and current sleep `duration` d. -/
def pollLoop {T : Type} (attempt : Nat → Option T) :
    Nat → Nat → Nat → List Nat × Option T
  | _, 0, _ => ([], none)
  | i, r + 1, d =>
    match attempt i with
    | some v => ([], some v)
    | none =>
      let rest := pollLoop attempt (i + 1) r (pollDelayStep d)
      (d :: rest.1, rest.2)

/-- `pollAWSRequest`: quiet attempts with backoff, then the final attempt
whose outcome (`final`) is returned as is — in particular its error is
propagated unchanged. -/
def pollAWSRequest {T E : Type} (n : Nat) (attempt : Nat → Option T)
    (final : Except E T) : List Nat × Except E T :=
  match pollLoop attempt 1 (n - 1) 1000 with
  | (ds, some v) => (ds, Except.ok v)
  | (ds, none) => (ds, final)

/-! ## The interleaved system: one queue-path call, the collector, drain

`cloudifyWithResponse`'s queue branch runs, in program order:
`enqueueCallRequest` (synchronous registration), then
`await enqueueCallRequest(...).promise` (suspension until the deferred
settles; a rejection makes the `await` throw), then `sns.publish(...)`
(which may succeed or fail).  The collector loop re-checks
`isEmpty(callResultPromises)` at the top, long-polls for a batch, processes
it synchronously, and on exit deletes `resultCollectorPromise` and schedules
a zero-delay restart check.  `cancelWithoutCleanup` clears the table,
rejects the cleared entries, and awaits the collector promise when set.

`Step cid` interleaves these tasks for one distinguished caller whose
CallId is `cid`; other concurrent calls appear as `env_enqueue` steps with
a fresh CallId (CallIds are v4 uuids and per the spec never reused).
Messages delivered to the response queue are unconstrained (duplicates and
unmatched CallIds included). -/

/-- Program counter of the distinguished caller coroutine
(`responsifedFunc`'s queue branch). -/
inductive CallerPC
  | start
  | awaiting
  | resumed (ret : FunctionReturn)
  | published (ret : FunctionReturn)
  | publishFailed
  | cancelled
deriving DecidableEq, Repr

/-- Program counter of the collector loop instance (idle when none runs). -/
inductive CollectorPC
  | idle
  | atCheck
  | waitingBatch
deriving DecidableEq, Repr

/-- Program counter of `cancelWithoutCleanup`. -/
inductive DrainPC
  | notStarted
  | waitingCollector
  | returned
deriving DecidableEq, Repr

/-- Whole-system state: the engine record together with the three task
counters, the number of collector loop instances currently running, the
pending restart timer, and whether the collector promise the drain awaits
has resolved. -/
structure Sys where
  engine : EngineState
  callerId : Option Nat
  caller : CallerPC
  collector : CollectorPC
  collectorCount : Nat
  timerPending : Bool
  drain : DrainPC
  drainCanReturn : Bool
deriving DecidableEq, Repr

/-- Effect of the caller running `enqueueCallRequest(state, CallId)` and
suspending on the returned promise. -/
def registerEffect (cid : String) (s : Sys) : Sys :=
  let r := enqueueCallRequest s.engine cid
  { s with
    engine := r.1
    callerId := some r.2.1
    caller := .awaiting
    collector := if r.2.2 then .atCheck else s.collector
    collectorCount := s.collectorCount + (if r.2.2 then 1 else 0) }

/-- Effect of some other concurrent call running `enqueueCallRequest`. -/
def envEnqueueEffect (other : String) (s : Sys) : Sys :=
  let r := enqueueCallRequest s.engine other
  { s with
    engine := r.1
    collector := if r.2.2 then .atCheck else s.collector
    collectorCount := s.collectorCount + (if r.2.2 then 1 else 0) }

/-- Effect of the collector loop observing an empty table at the top of the
`while`: exit the loop, `delete state.resultCollectorPromise`, schedule the
zero-delay restart check, and thereby resolve the promise a waiting drain
awaits. -/
def collectorExitEffect (s : Sys) : Sys :=
  { s with
    collector := .idle
    engine := { s.engine with resultCollectorPromise := false }
    collectorCount := s.collectorCount - 1
    timerPending := true
    drainCanReturn := if s.drain = .waitingCollector then true else s.drainCanReturn }

/-- Effect of the scheduled `setTimeout(() => startResultCollectorIfNeeded(state), 0)`. -/
def timerEffect (s : Sys) : Sys :=
  let r := startResultCollectorIfNeeded s.engine
  { s with
    timerPending := false
    engine := r.1
    collector := if r.2 then .atCheck else s.collector
    collectorCount := s.collectorCount + (if r.2 then 1 else 0) }

/-- Effect of the synchronous part of `cancelWithoutCleanup`: clear and
reject, then either await the collector promise or return at once. -/
def drainClearEffect (s : Sys) : Sys :=
  { s with
    engine := cancelClear s.engine
    drain := if s.engine.resultCollectorPromise then .waitingCollector else .returned }

/-- The interleaving relation for one distinguished call `cid`. -/
inductive Step (cid : String) : Sys → Sys → Prop
  | caller_register (s : Sys)
      (h1 : s.caller = .start) (h2 : s.drain = .notStarted) :
      Step cid s (registerEffect cid s)
  | env_enqueue (s : Sys) (other : String)
      (h1 : other ≠ cid) (h2 : s.drain = .notStarted)
      (h3 : alookup s.engine.callResultPromises other = none) :
      Step cid s (envEnqueueEffect other s)
  | caller_resume (s : Sys) (id : Nat) (ret : FunctionReturn)
      (h1 : s.caller = .awaiting) (h2 : s.callerId = some id)
      (h3 : alookup s.engine.deferreds id = some (.resolved ret)) :
      Step cid s { s with caller := .resumed ret }
  | caller_cancel (s : Sys) (id : Nat) (err : String)
      (h1 : s.caller = .awaiting) (h2 : s.callerId = some id)
      (h3 : alookup s.engine.deferreds id = some (.rejected err)) :
      Step cid s { s with caller := .cancelled }
  | caller_publish_ok (s : Sys) (ret : FunctionReturn)
      (h : s.caller = .resumed ret) :
      Step cid s { s with caller := .published ret }
  | caller_publish_fail (s : Sys) (ret : FunctionReturn)
      (h : s.caller = .resumed ret) :
      Step cid s { s with caller := .publishFailed }
  | collector_exit (s : Sys)
      (h1 : s.collector = .atCheck)
      (h2 : s.engine.callResultPromises.isEmpty = true) :
      Step cid s (collectorExitEffect s)
  | collector_continue (s : Sys)
      (h1 : s.collector = .atCheck)
      (h2 : s.engine.callResultPromises.isEmpty = false) :
      Step cid s { s with collector := .waitingBatch }
  | collector_deliver (s : Sys) (ms : List SqsMessage)
      (h : s.collector = .waitingBatch) :
      Step cid s { s with engine := (processBatch s.engine ms).1, collector := .atCheck }
  | timer_fire (s : Sys) (h : s.timerPending = true) :
      Step cid s (timerEffect s)
  | drain_clear (s : Sys) (h : s.drain = .notStarted) :
      Step cid s (drainClearEffect s)
  | drain_return (s : Sys)
      (h1 : s.drain = .waitingCollector) (h2 : s.drainCanReturn = true) :
      Step cid s { s with drain := .returned }

/-- The initial system: empty table, no deferreds, nothing running. -/
def sysInit : Sys :=
  { engine := { callResultPromises := [], deferreds := [], nextId := 0,
                resultCollectorPromise := false }
    callerId := none
    caller := .start
    collector := .idle
    collectorCount := 0
    timerPending := false
    drain := .notStarted
    drainCanReturn := false }

/-- States the system can reach from the initial state. -/
def Reachable (cid : String) (s : Sys) : Prop :=
  Relation.ReflTransGen (Step cid) sysInit s

/-! ## collectGarbage's guard (second-generation file, lines 1221-1322)

`collectGarbage` returns immediately when `garbageCollectorRunning` is set,
otherwise sets it, runs the collection, and resets it in a `finally` block,
so the flag is cleared whether the collection succeeds or fails.  `active`
counts collection bodies currently executing. -/

structure GCSys where
  garbageCollectorRunning : Bool
  active : Nat
deriving DecidableEq, Repr

/-- Effect of calling `collectGarbage`: a no-op when the guard is set. -/
def gcInvokeEffect (g : GCSys) : GCSys :=
  if g.garbageCollectorRunning then g
  else { garbageCollectorRunning := true, active := g.active + 1 }

/-- Effect of a collection body finishing, by success (`ok = true`) or by a
thrown error: the `finally` clause resets the flag either way. -/
def gcFinishEffect (_ok : Bool) (g : GCSys) : GCSys :=
  { garbageCollectorRunning := false, active := g.active - 1 }

inductive GCStep : GCSys → GCSys → Prop
  | invoke (g : GCSys) : GCStep g (gcInvokeEffect g)
  | finishBody (g : GCSys) (ok : Bool) (h : 1 ≤ g.active) :
      GCStep g (gcFinishEffect ok g)

def gcInit : GCSys := { garbageCollectorRunning := false, active := 0 }

def GCReach (g : GCSys) : Prop := Relation.ReflTransGen GCStep gcInit g

/-! ## The drain protocol of the generation-two engine (spec-modelled) -/

/-- Modelled from the spec: the generation-two `stop` (aws-cloudify.ts lines
1421-1431) delegates to `cloudqueue.stop` in `src/queue.ts`, which is not
among the staged files; only its caller is.  Spec section 4.3: the engine
moves through `Idle → Polling → Draining → Stopped`; `stop()` "publishes a
stop control message to the response destination (to unblock a blocking
poll), marks the engine as draining, and waits for the loop to reach
Stopped", the loop "exits on an observed stop control message, settling
every remaining PendingCall with a cancellation error and clearing the
table", and `stop()` on an already-Stopped engine is a no-op. -/
inductive CQPhase
  | idle
  | polling
  | draining
  | stopped
deriving DecidableEq, Repr

/-- Modelled from the spec: progress of the one `stop()` invocation. -/
inductive StopCall
  | notInvoked
  | waiting
  | returned
deriving DecidableEq, Repr

/-- Modelled from the spec: queue-engine state as `cloudqueue.stop` sees it:
the engine phase, the ids of still-pending calls, the ids settled with the
drain's cancellation error, how many stop control messages were published to
the response destination, and where the `stop()` call stands. -/
structure StopSys where
  phase : CQPhase
  pending : List Nat
  cancelledCalls : List Nat
  controlPublished : Nat
  stopCall : StopCall
deriving DecidableEq, Repr

/-- Modelled from the spec: invoking `stop()`.  On a Stopped engine it is a
no-op that returns at once; otherwise it publishes one stop control message,
marks the engine draining and waits. -/
def stopInvokeEffect (s : StopSys) : StopSys :=
  if s.phase = .stopped then { s with stopCall := .returned }
  else
    { s with
      controlPublished := s.controlPublished + 1
      phase := .draining
      stopCall := .waiting }

/-- Modelled from the spec: the poll loop observing the stop control
message: every remaining PendingCall is settled with a cancellation error,
the table is cleared, and the engine transitions to Stopped. -/
def loopObserveStopEffect (s : StopSys) : StopSys :=
  { s with
    phase := .stopped
    pending := []
    cancelledCalls := s.cancelledCalls ++ s.pending }

inductive StopStep : StopSys → StopSys → Prop
  | submit (s : StopSys) (id : Nat) (h : s.phase = .polling) :
      StopStep s { s with pending := id :: s.pending }
  | settle (s : StopSys) (id : Nat) (h1 : s.phase = .polling) (h2 : id ∈ s.pending) :
      StopStep s { s with pending := s.pending.erase id }
  | invoke (s : StopSys) (h : s.stopCall = .notInvoked) :
      StopStep s (stopInvokeEffect s)
  | observe (s : StopSys) (h : s.phase = .draining) :
      StopStep s (loopObserveStopEffect s)
  | ret (s : StopSys) (h1 : s.stopCall = .waiting) (h2 : s.phase = .stopped) :
      StopStep s { s with stopCall := .returned }

/-- Modelled from the spec: a polling engine with outstanding calls `p0`. -/
def stopInit (p0 : List Nat) : StopSys :=
  { phase := .polling, pending := p0, cancelledCalls := [], controlPublished := 0,
    stopCall := .notInvoked }

def StopReach (p0 : List Nat) (s : StopSys) : Prop :=
  Relation.ReflTransGen StopStep (stopInit p0) s

/-! ## The Funnel's concurrency gate (spec-modelled) -/

/-- Modelled from the spec: an operation passed through a Funnel is waiting
for admission, executing (with its recorded start time), or done (with its
recorded start and end times).  The Funnel itself (`throttle` in
src/throttle.ts) is not among the staged files; only its test is. -/
inductive OpPhase
  | waitingPh
  | runningPh (startTime : Nat)
  | donePh (startTime finishTime : Nat)
deriving DecidableEq, Repr

/-- Modelled from the spec: Funnel admission state — the configured
concurrency limit, a logical clock that advances on every event (so every
recorded timestamp is distinct), and the per-operation phases. -/
structure FunnelSys where
  concurrency : Nat
  clock : Nat
  ops : List (Nat × OpPhase)
deriving DecidableEq, Repr

def isRunningPh : OpPhase → Bool
  | .runningPh _ => true
  | _ => false

/-- How many operations hold an admission slot right now. -/
def countRunning (s : FunnelSys) : Nat :=
  (s.ops.filter (fun p => isRunningPh p.2)).length

/-- Modelled from the spec: admitting a waiting operation consumes a slot
and records its start time. -/
def admitEffect (s : FunnelSys) (i : Nat) : FunnelSys :=
  { s with
    clock := s.clock + 1
    ops := aupdate s.ops i (fun _ => .runningPh (s.clock + 1)) }

/-- Modelled from the spec: a running operation completing releases its slot
and records its end time. -/
def finishEffect (s : FunnelSys) (i : Nat) (st : Nat) : FunnelSys :=
  { s with
    clock := s.clock + 1
    ops := aupdate s.ops i (fun _ => .donePh st (s.clock + 1)) }

inductive FunnelStep : FunnelSys → FunnelSys → Prop
  | tick (s : FunnelSys) : FunnelStep s { s with clock := s.clock + 1 }
  | admitOp (s : FunnelSys) (i : Nat)
      (h1 : alookup s.ops i = some .waitingPh)
      (h2 : countRunning s < s.concurrency) :
      FunnelStep s (admitEffect s i)
  | finishOp (s : FunnelSys) (i st : Nat)
      (h : alookup s.ops i = some (.runningPh st)) :
      FunnelStep s (finishEffect s i st)

/-- Modelled from the spec: N operations submitted simultaneously to a
Funnel configured with concurrency limit c. -/
def funnelInit (N c : Nat) : FunnelSys :=
  { concurrency := c, clock := 0, ops := (List.range N).map (fun i => (i, .waitingPh)) }

def FunnelReach (N c : Nat) (s : FunnelSys) : Prop :=
  Relation.ReflTransGen FunnelStep (funnelInit N c) s

def startOf : OpPhase → Option Nat
  | .waitingPh => none
  | .runningPh t => some t
  | .donePh a _ => some a

def endOf : OpPhase → Option Nat
  | .donePh _ b => some b
  | _ => none

/-! ## Association-list lemmas -/

theorem alookup_eq_some_mem {κ α : Type} [DecidableEq κ] {l : List (κ × α)} {k : κ}
    {v : α} (h : alookup l k = some v) : (k, v) ∈ l := by
  induction l with
  | nil => simp [alookup] at h
  | cons p rest ih =>
    by_cases hk : p.1 = k
    · simp [alookup, hk] at h
      subst hk h
      exact List.mem_cons_self _ _
    · simp [alookup, hk] at h
      exact List.mem_cons_of_mem _ (ih h)

theorem alookup_of_mem_nodup {κ α : Type} [DecidableEq κ] {l : List (κ × α)} {k : κ}
    {v : α} (hn : (l.map Prod.fst).Nodup) (h : (k, v) ∈ l) : alookup l k = some v := by
  induction l with
  | nil => simp at h
  | cons p rest ih =>
    simp only [List.map_cons, List.nodup_cons] at hn
    rcases List.mem_cons.mp h with h | h
    · subst h; simp [alookup]
    · have hk : p.1 ≠ k := by
        intro hkk
        exact hn.1 (hkk ▸ (List.mem_map.mpr ⟨(k, v), h, rfl⟩))
      simp [alookup, hk]
      exact ih hn.2 h

theorem alookup_eq_none_iff {κ α : Type} [DecidableEq κ] {l : List (κ × α)} {k : κ} :
    alookup l k = none ↔ k ∉ l.map Prod.fst := by
  induction l with
  | nil => simp [alookup]
  | cons p rest ih =>
    by_cases hk : p.1 = k
    · simp [alookup, hk]
    · simp [alookup, hk, ih, Ne.symm hk]

theorem alookup_append {κ α : Type} [DecidableEq κ] (l₁ l₂ : List (κ × α)) (k : κ) :
    alookup (l₁ ++ l₂) k =
      match alookup l₁ k with
      | some v => some v
      | none => alookup l₂ k := by
  induction l₁ with
  | nil => simp [alookup]
  | cons p rest ih =>
    by_cases hk : p.1 = k
    · simp [alookup, hk]
    · simp [alookup, hk, ih]

theorem aupdate_cons {κ α : Type} [DecidableEq κ] (p : κ × α) (rest : List (κ × α))
    (k : κ) (f : α → α) :
    aupdate (p :: rest) k f =
      (if p.1 = k then (p.1, f p.2) else p) :: aupdate rest k f := rfl

theorem aerase_cons {κ α : Type} [DecidableEq κ] (p : κ × α) (rest : List (κ × α))
    (k : κ) :
    aerase (p :: rest) k = if p.1 = k then aerase rest k else p :: aerase rest k := by
  by_cases hk : p.1 = k <;> simp [aerase, hk]

theorem alookup_aupdate_self {κ α : Type} [DecidableEq κ] {l : List (κ × α)} {k : κ}
    {v : α} (f : α → α) (h : alookup l k = some v) :
    alookup (aupdate l k f) k = some (f v) := by
  induction l with
  | nil => simp [alookup] at h
  | cons p rest ih =>
    rw [aupdate_cons]
    by_cases hk : p.1 = k
    · simp [alookup, hk] at h
      simp [alookup, hk, h]
    · simp [alookup, hk] at h
      simp [alookup, hk, ih h]

theorem alookup_aupdate_none {κ α : Type} [DecidableEq κ] {l : List (κ × α)} {k : κ}
    (f : α → α) (h : alookup l k = none) : alookup (aupdate l k f) k = none := by
  induction l with
  | nil => simp [aupdate, alookup]
  | cons p rest ih =>
    rw [aupdate_cons]
    by_cases hk : p.1 = k
    · simp [alookup, hk] at h
    · simp [alookup, hk] at h
      simp [alookup, hk, ih h]

theorem alookup_aupdate_ne {κ α : Type} [DecidableEq κ] {l : List (κ × α)} {k k' : κ}
    (f : α → α) (h : k' ≠ k) : alookup (aupdate l k f) k' = alookup l k' := by
  induction l with
  | nil => simp [aupdate, alookup]
  | cons p rest ih =>
    rw [aupdate_cons]
    by_cases hk : p.1 = k
    · have hkk : k ≠ k' := Ne.symm h
      rw [if_pos hk]
      simp only [alookup, hk, hkk, if_false]
      simpa [hkk] using ih
    · rw [if_neg hk]
      simp only [alookup]
      by_cases hk' : p.1 = k'
      · simp [hk']
      · simp [hk', ih]

theorem aupdate_map_fst {κ α : Type} [DecidableEq κ] (l : List (κ × α)) (k : κ)
    (f : α → α) : (aupdate l k f).map Prod.fst = l.map Prod.fst := by
  induction l with
  | nil => rfl
  | cons p rest ih =>
    by_cases hk : p.1 = k
    · simp [aupdate, hk] at ih ⊢
      simpa [hk] using ih
    · simp [aupdate, hk] at ih ⊢
      simpa using ih

theorem alookup_aerase_self {κ α : Type} [DecidableEq κ] (l : List (κ × α)) (k : κ) :
    alookup (aerase l k) k = none := by
  induction l with
  | nil => simp [aerase, alookup]
  | cons p rest ih =>
    rw [aerase_cons]
    by_cases hk : p.1 = k
    · simpa [hk] using ih
    · simp [alookup, hk, ih]

theorem alookup_aerase_ne {κ α : Type} [DecidableEq κ] {l : List (κ × α)} {k k' : κ}
    (h : k' ≠ k) : alookup (aerase l k) k' = alookup l k' := by
  induction l with
  | nil => simp [aerase, alookup]
  | cons p rest ih =>
    rw [aerase_cons]
    by_cases hk : p.1 = k
    · have hkk : k ≠ k' := Ne.symm h
      simp [alookup, hk, hkk, ih]
    · simp [alookup, hk, ih]

theorem aerase_of_alookup_none {κ α : Type} [DecidableEq κ] {l : List (κ × α)} {k : κ}
    (h : alookup l k = none) : aerase l k = l := by
  induction l with
  | nil => rfl
  | cons p rest ih =>
    rw [aerase_cons]
    by_cases hk : p.1 = k
    · simp [alookup, hk] at h
    · simp [alookup, hk] at h
      simp [hk, ih h]

theorem aerase_sublist {κ α : Type} [DecidableEq κ] (l : List (κ × α)) (k : κ) :
    (aerase l k).Sublist l := List.filter_sublist l

theorem mem_of_mem_aerase {κ α : Type} [DecidableEq κ] {l : List (κ × α)} {k : κ}
    {p : κ × α} (h : p ∈ aerase l k) : p ∈ l ∧ p.1 ≠ k := by
  have := List.mem_filter.mp h
  exact ⟨this.1, by simpa using this.2⟩

/-! ## pollAWSRequest lemmas (claim C8) -/

theorem pollDelayStep_le (d : Nat) : d ≤ pollDelayStep d := by
  unfold pollDelayStep
  split <;> omega

theorem pollLoop_delays_lb {T : Type} (attempt : Nat → Option T) :
    ∀ (r i d : Nat), ∀ x ∈ (pollLoop attempt i r d).1, d ≤ x := by
  intro r
  induction r with
  | zero => intro i d x hx; simp [pollLoop] at hx
  | succ r ih =>
    intro i d x hx
    unfold pollLoop at hx
    cases h : attempt i with
    | some v => simp [h] at hx
    | none =>
      simp only [h] at hx
      rcases List.mem_cons.mp hx with hx | hx
      · omega
      · exact le_trans (pollDelayStep_le d) (ih (i + 1) (pollDelayStep d) x hx)

theorem pollLoop_delays_chain {T : Type} (attempt : Nat → Option T) :
    ∀ (r i d : Nat), List.Chain' (· ≤ ·) (pollLoop attempt i r d).1 := by
  intro r
  induction r with
  | zero => intro i d; simp [pollLoop]
  | succ r ih =>
    intro i d
    unfold pollLoop
    cases h : attempt i with
    | some v => simp
    | none =>
      simp only
      refine List.chain'_cons'.mpr ⟨?_, ih (i + 1) (pollDelayStep d)⟩
      intro y hy
      have hmem : y ∈ (pollLoop attempt (i + 1) r (pollDelayStep d)).1 :=
        List.mem_of_mem_head? hy
      exact le_trans (pollDelayStep_le d)
        (pollLoop_delays_lb attempt r (i + 1) (pollDelayStep d) y hmem)

theorem pollLoop_allfail {T : Type} (attempt : Nat → Option T)
    (hfail : ∀ j, attempt j = none) :
    ∀ (r i d : Nat),
      pollLoop attempt i r d = ((List.range r).map (fun k => pollDelayStep^[k] d), none) := by
  intro r
  induction r with
  | zero => intro i d; simp [pollLoop]
  | succ r ih =>
    intro i d
    unfold pollLoop
    rw [hfail i]
    simp only [ih (i + 1) (pollDelayStep d)]
    rw [List.range_succ_eq_map]
    simp only [List.map_cons, List.map_map, Function.iterate_zero, id_eq]
    refine congrArg (fun l => (d :: l, (none : Option T))) ?_
    refine List.map_congr_left ?_
    intro k _
    simp [Function.comp, Function.iterate_succ_apply]

theorem iterate_pollDelayStep (k : Nat) :
    pollDelayStep^[k] 1000 = min (1000 * (k + 1)) 5000 := by
  induction k with
  | zero => simp
  | succ k ih =>
    rw [Function.iterate_succ_apply', ih]
    unfold pollDelayStep
    rcases Nat.lt_or_ge (1000 * (k + 1)) 5000 with h | h
    · rw [min_eq_left (by omega)]
      split <;> omega
    · rw [min_eq_right (by omega)]
      split <;> omega

theorem pollAWSRequest_fst {T E : Type} (n : Nat) (attempt : Nat → Option T)
    (final : Except E T) :
    (pollAWSRequest n attempt final).1 = (pollLoop attempt 1 (n - 1) 1000).1 := by
  unfold pollAWSRequest
  rcases h : pollLoop attempt 1 (n - 1) 1000 with ⟨ds, r⟩
  cases r <;> simp

/-- C8: for every retried operation run through `pollAWSRequest` with n
attempts, the sleep before each re-execution is monotonically non-decreasing,
and when every quiet attempt fails the sleeps are exactly 1000ms, 2000ms, ...
capped at 5000ms (the k-th sleep is min(1000(k+1), 5000)); when the final
attempt also fails, its error is returned unchanged, not wrapped. -/
theorem C8_backoff_and_error_propagation {T E : Type} (n : Nat)
    (attempt attemptB : Nat → Option T) (e : E) (finalB : Except E T)
    (hfail : ∀ i, attempt i = none) :
    List.Chain' (· ≤ ·) (pollAWSRequest n attemptB finalB).1
    ∧ (pollAWSRequest n attempt (Except.error e)).1
        = (List.range (n - 1)).map (fun k => min (1000 * (k + 1)) 5000)
    ∧ (pollAWSRequest n attempt (Except.error e)).2 = Except.error e := by
  refine ⟨?_, ?_, ?_⟩
  · rw [pollAWSRequest_fst]
    exact pollLoop_delays_chain attemptB (n - 1) 1 1000
  · rw [pollAWSRequest_fst]
    rw [pollLoop_allfail attempt hfail (n - 1) 1 1000]
    exact List.map_congr_left fun k _ => iterate_pollDelayStep k
  · unfold pollAWSRequest
    rw [pollLoop_allfail attempt hfail (n - 1) 1 1000]

/-- Witness for C8 at n = 7 with every attempt failing. -/
theorem C8_witness :
    List.Chain' (· ≤ ·)
        (pollAWSRequest 7 (fun _ => (none : Option Nat)) (Except.error "boom")).1
    ∧ (pollAWSRequest 7 (fun _ => (none : Option Nat)) (Except.error "boom")).1
        = (List.range 6).map (fun k => min (1000 * (k + 1)) 5000)
    ∧ (pollAWSRequest 7 (fun _ => (none : Option Nat)) (Except.error "boom")).2
        = Except.error "boom" :=
  C8_backoff_and_error_propagation 7 (fun _ => none) (fun _ => none) "boom"
    (Except.error "boom") (fun _ => rfl)

/-! ## Claims C2 and C3: message processing in the poll loop -/

/-- C2: a matching delivery removes the table entry and resolves the future;
a second delivery bearing the same CallId (in whichever order the two
arrive, the one processed second) changes no deferred and no table entry:
the future settles at most once, the entry is removed exactly once. -/
theorem C2_duplicate_delivery_single_settlement (e : EngineState)
    (ret ret2 : FunctionReturn) (id : Nat)
    (h1 : alookup e.callResultPromises ret.CallId = some id)
    (h2 : alookup e.deferreds id = some .pending)
    (h3 : ret2.CallId = ret.CallId) :
    alookup (processMessage e ⟨some ret⟩).1.deferreds id = some (.resolved ret)
    ∧ alookup (processMessage e ⟨some ret⟩).1.callResultPromises ret.CallId = none
    ∧ (processMessage (processMessage e ⟨some ret⟩).1 ⟨some ret2⟩).1.deferreds
        = (processMessage e ⟨some ret⟩).1.deferreds
    ∧ (processMessage (processMessage e ⟨some ret⟩).1 ⟨some ret2⟩).1.callResultPromises
        = (processMessage e ⟨some ret⟩).1.callResultPromises := by
  have hfst : (processMessage e ⟨some ret⟩).1 =
      { e with
        callResultPromises := aerase e.callResultPromises ret.CallId
        deferreds := resolveDeferred e.deferreds id ret } := by
    simp [processMessage, h1]
  have htab : alookup (aerase e.callResultPromises ret.CallId) ret2.CallId = none := by
    rw [h3]; exact alookup_aerase_self _ _
  refine ⟨?_, ?_, ?_, ?_⟩
  · rw [hfst]
    simpa [resolveDeferred, settleResolve] using
      alookup_aupdate_self (fun st => settleResolve st ret) h2
  · rw [hfst]
    exact alookup_aerase_self _ _
  · rw [hfst]
    simp [processMessage, htab]
  · rw [hfst]
    simp [processMessage, htab]
    exact aerase_of_alookup_none htab

/-- Witness for C2: one registered call "c", a response for it delivered
twice. -/
theorem C2_witness :
    alookup (processMessage
        { callResultPromises := [("c", 0)], deferreds := [(0, .pending)],
          nextId := 1, resultCollectorPromise := true }
        ⟨some ⟨"c", "returned", "7"⟩⟩).1.deferreds 0
      = some (.resolved ⟨"c", "returned", "7"⟩)
    ∧ alookup (processMessage
        { callResultPromises := [("c", 0)], deferreds := [(0, .pending)],
          nextId := 1, resultCollectorPromise := true }
        ⟨some ⟨"c", "returned", "7"⟩⟩).1.callResultPromises "c" = none
    ∧ (processMessage (processMessage
        { callResultPromises := [("c", 0)], deferreds := [(0, .pending)],
          nextId := 1, resultCollectorPromise := true }
        ⟨some ⟨"c", "returned", "7"⟩⟩).1 ⟨some ⟨"c", "returned", "7"⟩⟩).1.deferreds
      = (processMessage
        { callResultPromises := [("c", 0)], deferreds := [(0, .pending)],
          nextId := 1, resultCollectorPromise := true }
        ⟨some ⟨"c", "returned", "7"⟩⟩).1.deferreds
    ∧ (processMessage (processMessage
        { callResultPromises := [("c", 0)], deferreds := [(0, .pending)],
          nextId := 1, resultCollectorPromise := true }
        ⟨some ⟨"c", "returned", "7"⟩⟩).1 ⟨some ⟨"c", "returned", "7"⟩⟩).1.callResultPromises
      = (processMessage
        { callResultPromises := [("c", 0)], deferreds := [(0, .pending)],
          nextId := 1, resultCollectorPromise := true }
        ⟨some ⟨"c", "returned", "7"⟩⟩).1.callResultPromises :=
  C2_duplicate_delivery_single_settlement
    { callResultPromises := [("c", 0)], deferreds := [(0, .pending)],
      nextId := 1, resultCollectorPromise := true }
    ⟨"c", "returned", "7"⟩ ⟨"c", "returned", "7"⟩ 0 (by decide) (by decide) rfl

/-- Counterexample to C3 as stated: a response whose CallId "zzz" matches no
table entry is acknowledged (deleted from the queue) by the poll loop — the
disposition is `acked`, not `deadLettered` — while no deferred changes. -/
theorem C3_counterexample :
    (processMessage
        { callResultPromises := [], deferreds := [], nextId := 0,
          resultCollectorPromise := false }
        ⟨some ⟨"zzz", "returned", "1"⟩⟩).2 = Disposition.acked
    ∧ Disposition.acked ≠ Disposition.deadLettered
    ∧ (processMessage
        { callResultPromises := [], deferreds := [], nextId := 0,
          resultCollectorPromise := false }
        ⟨some ⟨"zzz", "returned", "1"⟩⟩).1.deferreds = [] :=
  ⟨rfl, by decide, rfl⟩

/-- C3 as amended: a response whose CallId has no matching pending entry is
logged and acknowledged (deleted from the queue) — there is no dead-letter
routing in this code — and the engine state is left unchanged, so no pending
future anywhere is affected. -/
theorem C3_unmatched_message_acknowledged (e : EngineState) (ret : FunctionReturn)
    (h : alookup e.callResultPromises ret.CallId = none) :
    (processMessage e ⟨some ret⟩).1 = e
    ∧ (processMessage e ⟨some ret⟩).2 = Disposition.acked := by
  constructor
  · simp [processMessage, h, aerase_of_alookup_none h]
  · simp [processMessage, h]

/-- Witness for C3's amended statement: a non-empty table, a response with an
unmatched CallId. -/
theorem C3_witness :
    (processMessage
        { callResultPromises := [("a", 0)], deferreds := [(0, .pending)],
          nextId := 1, resultCollectorPromise := true }
        ⟨some ⟨"zzz", "returned", "1"⟩⟩).1
      = { callResultPromises := [("a", 0)], deferreds := [(0, .pending)],
          nextId := 1, resultCollectorPromise := true }
    ∧ (processMessage
        { callResultPromises := [("a", 0)], deferreds := [(0, .pending)],
          nextId := 1, resultCollectorPromise := true }
        ⟨some ⟨"zzz", "returned", "1"⟩⟩).2 = Disposition.acked :=
  C3_unmatched_message_acknowledged
    { callResultPromises := [("a", 0)], deferreds := [(0, .pending)],
      nextId := 1, resultCollectorPromise := true }
    ⟨"zzz", "returned", "1"⟩ (by decide)

/-! ## Engine-operation lemmas -/

theorem enqueueCallRequest_spec (e : EngineState) (k : String)
    (hk : alookup e.callResultPromises k = none) :
    (enqueueCallRequest e k).2.1 = e.nextId
    ∧ (enqueueCallRequest e k).1.nextId = e.nextId + 1
    ∧ (enqueueCallRequest e k).1.callResultPromises
        = e.callResultPromises ++ [(k, e.nextId)]
    ∧ (enqueueCallRequest e k).1.deferreds = e.deferreds ++ [(e.nextId, .pending)]
    ∧ (enqueueCallRequest e k).1.resultCollectorPromise = true
    ∧ (enqueueCallRequest e k).2.2 = !e.resultCollectorPromise := by
  have hins : ainsert e.callResultPromises k e.nextId
      = e.callResultPromises ++ [(k, e.nextId)] := by
    simp [ainsert, hk]
  have hne : (e.callResultPromises ++ [(k, e.nextId)]).isEmpty = false := by
    simp [List.isEmpty_iff]
  cases hflag : e.resultCollectorPromise with
  | true =>
    simp [enqueueCallRequest, startResultCollectorIfNeeded, hins, hne, hflag]
  | false =>
    simp [enqueueCallRequest, startResultCollectorIfNeeded, hins, hne, hflag]

theorem processMessage_no_body (e : EngineState) :
    processMessage e ⟨none⟩ = (e, .acked) := rfl

theorem processMessage_unmatched (e : EngineState) (ret : FunctionReturn)
    (h : alookup e.callResultPromises ret.CallId = none) :
    processMessage e ⟨some ret⟩ =
      ({ e with callResultPromises := aerase e.callResultPromises ret.CallId },
        .acked) := by
  simp [processMessage, h]

theorem processMessage_matched (e : EngineState) (ret : FunctionReturn) (id : Nat)
    (h : alookup e.callResultPromises ret.CallId = some id) :
    processMessage e ⟨some ret⟩ =
      ({ e with
          callResultPromises := aerase e.callResultPromises ret.CallId
          deferreds := resolveDeferred e.deferreds id ret },
        .acked) := by
  simp [processMessage, h]

theorem processMessage_nextId (e : EngineState) (m : SqsMessage) :
    (processMessage e m).1.nextId = e.nextId := by
  obtain ⟨body⟩ := m
  cases body with
  | none => rw [processMessage_no_body]
  | some ret =>
    rcases hq : alookup e.callResultPromises ret.CallId with _ | id
    · rw [processMessage_unmatched e ret hq]
    · rw [processMessage_matched e ret id hq]

theorem processMessage_flag (e : EngineState) (m : SqsMessage) :
    (processMessage e m).1.resultCollectorPromise = e.resultCollectorPromise := by
  obtain ⟨body⟩ := m
  cases body with
  | none => rw [processMessage_no_body]
  | some ret =>
    rcases hq : alookup e.callResultPromises ret.CallId with _ | id
    · rw [processMessage_unmatched e ret hq]
    · rw [processMessage_matched e ret id hq]

theorem processMessage_lookup_none (e : EngineState) (m : SqsMessage) (k : String)
    (h : alookup e.callResultPromises k = none) :
    alookup (processMessage e m).1.callResultPromises k = none := by
  obtain ⟨body⟩ := m
  cases body with
  | none => rw [processMessage_no_body]; exact h
  | some ret =>
    have herase : alookup (aerase e.callResultPromises ret.CallId) k = none := by
      by_cases hc : k = ret.CallId
      · subst hc; exact alookup_aerase_self e.callResultPromises ret.CallId
      · rw [alookup_aerase_ne hc]; exact h
    rcases hq : alookup e.callResultPromises ret.CallId with _ | id
    · rw [processMessage_unmatched e ret hq]; exact herase
    · rw [processMessage_matched e ret id hq]; exact herase

theorem processMessage_table_nil (e : EngineState) (m : SqsMessage)
    (h : e.callResultPromises = []) :
    (processMessage e m).1.callResultPromises = [] := by
  obtain ⟨body⟩ := m
  cases body with
  | none => rw [processMessage_no_body]; exact h
  | some ret =>
    have hq : alookup e.callResultPromises ret.CallId = none := by
      rw [h]; rfl
    rw [processMessage_unmatched e ret hq]
    simp [h, aerase]

theorem settleResolve_of_ne_pending {st : DeferredState} (h : st ≠ .pending)
    (ret : FunctionReturn) : settleResolve st ret = st := by
  cases st with
  | pending => exact absurd rfl h
  | resolved r => rfl
  | rejected e => rfl

theorem settleReject_of_ne_pending {st : DeferredState} (h : st ≠ .pending)
    (err : String) : settleReject st err = st := by
  cases st with
  | pending => exact absurd rfl h
  | resolved r => rfl
  | rejected e => rfl

theorem resolveDeferred_settled_stable {ds : List (Nat × DeferredState)} {i : Nat}
    {st : DeferredState} (hst : st ≠ .pending) (h : alookup ds i = some st)
    (id : Nat) (ret : FunctionReturn) :
    alookup (resolveDeferred ds id ret) i = some st := by
  by_cases hi : i = id
  · subst hi
    simpa [resolveDeferred, settleResolve_of_ne_pending hst] using
      alookup_aupdate_self (fun st => settleResolve st ret) h
  · simpa [resolveDeferred, alookup_aupdate_ne _ hi] using h

theorem processMessage_settled_stable (e : EngineState) (m : SqsMessage) (i : Nat)
    (st : DeferredState) (hst : st ≠ .pending)
    (h : alookup e.deferreds i = some st) :
    alookup (processMessage e m).1.deferreds i = some st := by
  obtain ⟨body⟩ := m
  cases body with
  | none => rw [processMessage_no_body]; exact h
  | some ret =>
    rcases hq : alookup e.callResultPromises ret.CallId with _ | id
    · rw [processMessage_unmatched e ret hq]; exact h
    · rw [processMessage_matched e ret id hq]
      exact resolveDeferred_settled_stable hst h id ret

theorem processBatch_nextId (e : EngineState) (ms : List SqsMessage) :
    (processBatch e ms).1.nextId = e.nextId := by
  induction ms generalizing e with
  | nil => rfl
  | cons m rest ih =>
    simp only [processBatch]
    rw [ih, processMessage_nextId]

theorem processBatch_flag (e : EngineState) (ms : List SqsMessage) :
    (processBatch e ms).1.resultCollectorPromise = e.resultCollectorPromise := by
  induction ms generalizing e with
  | nil => rfl
  | cons m rest ih =>
    simp only [processBatch]
    rw [ih, processMessage_flag]

theorem processBatch_lookup_none (e : EngineState) (ms : List SqsMessage) (k : String)
    (h : alookup e.callResultPromises k = none) :
    alookup (processBatch e ms).1.callResultPromises k = none := by
  induction ms generalizing e with
  | nil => exact h
  | cons m rest ih =>
    simp only [processBatch]
    exact ih _ (processMessage_lookup_none e m k h)

theorem processBatch_table_nil (e : EngineState) (ms : List SqsMessage)
    (h : e.callResultPromises = []) :
    (processBatch e ms).1.callResultPromises = [] := by
  induction ms generalizing e with
  | nil => exact h
  | cons m rest ih =>
    simp only [processBatch]
    exact ih _ (processMessage_table_nil e m h)

theorem processBatch_settled_stable (e : EngineState) (ms : List SqsMessage) (i : Nat)
    (st : DeferredState) (hst : st ≠ .pending)
    (h : alookup e.deferreds i = some st) :
    alookup (processBatch e ms).1.deferreds i = some st := by
  induction ms generalizing e with
  | nil => exact h
  | cons m rest ih =>
    simp only [processBatch]
    exact ih _ (processMessage_settled_stable e m i st hst h)

theorem cancelClear_table (e : EngineState) :
    (cancelClear e).callResultPromises = [] := rfl

theorem cancelClear_nextId (e : EngineState) : (cancelClear e).nextId = e.nextId := rfl

theorem cancelClear_flag (e : EngineState) :
    (cancelClear e).resultCollectorPromise = e.resultCollectorPromise := rfl

theorem foldReject_settled (ts : List (String × Nat)) (i : Nat) (st : DeferredState)
    (hst : st ≠ .pending) :
    ∀ ds : List (Nat × DeferredState), alookup ds i = some st →
      alookup (ts.foldl (fun a q => rejectDeferred a q.2 cancellationMessage) ds) i
        = some st := by
  induction ts with
  | nil => intro ds h; exact h
  | cons q rest ih =>
    intro ds h
    simp only [List.foldl_cons]
    refine ih _ ?_
    by_cases hq : i = q.2
    · subst hq
      simpa [rejectDeferred, settleReject_of_ne_pending hst] using
        alookup_aupdate_self (fun st => settleReject st cancellationMessage) h
    · simpa [rejectDeferred, alookup_aupdate_ne _ hq] using h

theorem foldReject_rejects (ts : List (String × Nat)) :
    ∀ ds : List (Nat × DeferredState),
      (ts.map Prod.snd).Nodup →
      (∀ p ∈ ts, alookup ds p.2 = some .pending) →
      ∀ p ∈ ts,
        alookup (ts.foldl (fun a q => rejectDeferred a q.2 cancellationMessage) ds) p.2
          = some (.rejected cancellationMessage) := by
  induction ts with
  | nil => intro ds _ _ p hp; simp at hp
  | cons q rest ih =>
    intro ds hn hp p hp2
    simp only [List.map_cons, List.nodup_cons] at hn
    simp only [List.foldl_cons]
    rcases List.mem_cons.mp hp2 with h | h
    · subst h
      refine foldReject_settled rest p.2 _ (by simp) _ ?_
      simpa [rejectDeferred, settleReject] using
        alookup_aupdate_self (fun st => settleReject st cancellationMessage)
          (hp p (List.mem_cons_self _ _))
    · refine ih _ hn.2 ?_ p h
      intro p2 hp3
      have hne : p2.2 ≠ q.2 := by
        intro heq
        exact hn.1 (heq ▸ List.mem_map.mpr ⟨p2, hp3, rfl⟩)
      have := hp p2 (List.mem_cons_of_mem _ hp3)
      simpa [rejectDeferred, alookup_aupdate_ne _ hne] using this

theorem cancelClear_rejects (e : EngineState)
    (hn : (e.callResultPromises.map Prod.snd).Nodup)
    (hp : ∀ p ∈ e.callResultPromises, alookup e.deferreds p.2 = some .pending) :
    ∀ p ∈ e.callResultPromises,
      alookup (cancelClear e).deferreds p.2 = some (.rejected cancellationMessage) := by
  intro p hp2
  simpa [cancelClear] using foldReject_rejects e.callResultPromises e.deferreds hn hp p hp2

theorem cancelClear_settled_stable (e : EngineState) (i : Nat) (st : DeferredState)
    (hst : st ≠ .pending) (h : alookup e.deferreds i = some st) :
    alookup (cancelClear e).deferreds i = some st := by
  simpa [cancelClear] using foldReject_settled e.callResultPromises i st hst e.deferreds h

/-! ## Engine invariant -/

theorem alookup_aupdate_domain {κ α : Type} [DecidableEq κ] {l : List (κ × α)}
    {k i : κ} {f : α → α} {v : α} (h : alookup (aupdate l k f) i = some v) :
    ∃ w, alookup l i = some w := by
  by_cases hi : i = k
  · subst hi
    rcases hw : alookup l i with _ | w
    · rw [alookup_aupdate_none f hw] at h
      exact absurd h (by simp)
    · exact ⟨w, rfl⟩
  · rw [alookup_aupdate_ne f hi] at h
    exact ⟨v, h⟩

theorem foldReject_domain (ts : List (String × Nat)) :
    ∀ (ds : List (Nat × DeferredState)) (i : Nat) (v : DeferredState),
      alookup (ts.foldl (fun a q => rejectDeferred a q.2 cancellationMessage) ds) i
        = some v →
      ∃ w, alookup ds i = some w := by
  induction ts with
  | nil => intro ds i v h; exact ⟨v, h⟩
  | cons q rest ih =>
    intro ds i v h
    simp only [List.foldl_cons] at h
    obtain ⟨w, hw⟩ := ih _ i v h
    exact alookup_aupdate_domain hw

/-- The structural invariant of the engine record: table keys and ids are
duplicate-free, ids are below the id counter, every tabled deferred is still
pending, and the distinguished call's table entry (when present) is exactly
the caller's deferred. -/
structure EngineInv (cid : String) (callerId : Option Nat) (e : EngineState) : Prop where
  keysNodup : (e.callResultPromises.map Prod.fst).Nodup
  idsNodup : (e.callResultPromises.map Prod.snd).Nodup
  tableFresh : ∀ p ∈ e.callResultPromises, p.2 < e.nextId
  dFresh : ∀ i st, alookup e.deferreds i = some st → i < e.nextId
  tablePending : ∀ p ∈ e.callResultPromises, alookup e.deferreds p.2 = some .pending
  callerTable : ∀ id, callerId = some id →
      alookup e.callResultPromises cid = none
      ∨ alookup e.callResultPromises cid = some id
  noCidEntry : callerId = none → alookup e.callResultPromises cid = none

theorem engineInv_enqueue_parts (cid : String) (callerId : Option Nat)
    (e : EngineState) (inv : EngineInv cid callerId e) (k : String)
    (hk : alookup e.callResultPromises k = none) :
    ((enqueueCallRequest e k).1.callResultPromises.map Prod.fst).Nodup
    ∧ ((enqueueCallRequest e k).1.callResultPromises.map Prod.snd).Nodup
    ∧ (∀ p ∈ (enqueueCallRequest e k).1.callResultPromises,
        p.2 < (enqueueCallRequest e k).1.nextId)
    ∧ (∀ i st, alookup (enqueueCallRequest e k).1.deferreds i = some st →
        i < (enqueueCallRequest e k).1.nextId)
    ∧ (∀ p ∈ (enqueueCallRequest e k).1.callResultPromises,
        alookup (enqueueCallRequest e k).1.deferreds p.2 = some .pending) := by
  obtain ⟨-, hnext, htab, hdefs, -, -⟩ := enqueueCallRequest_spec e k hk
  have hkmem : k ∉ e.callResultPromises.map Prod.fst := alookup_eq_none_iff.mp hk
  have hdnone : alookup e.deferreds e.nextId = none := by
    rcases hq : alookup e.deferreds e.nextId with _ | st
    · rfl
    · exact absurd (inv.dFresh _ _ hq) (by omega)
  refine ⟨?_, ?_, ?_, ?_, ?_⟩
  · rw [htab, List.map_append]
    refine List.Nodup.append inv.keysNodup (by simp) ?_
    intro a ha hb
    simp at hb
    exact hkmem (hb ▸ ha)
  · rw [htab, List.map_append]
    refine List.Nodup.append inv.idsNodup (by simp) ?_
    intro a ha hb
    simp at hb
    subst hb
    obtain ⟨p, hp, hpa⟩ := List.mem_map.mp ha
    exact absurd (hpa ▸ inv.tableFresh p hp) (by omega)
  · rw [htab, hnext]
    intro p hp
    rcases List.mem_append.mp hp with hp | hp
    · have := inv.tableFresh p hp; omega
    · simp at hp
      subst hp
      omega
  · rw [hdefs, hnext]
    intro i st hist
    rw [alookup_append] at hist
    rcases hq : alookup e.deferreds i with _ | w
    · rw [hq] at hist
      simp only [alookup] at hist
      split at hist
      · omega
      · exact absurd hist (by simp)
    · rw [hq] at hist
      have := inv.dFresh i w hq
      omega
  · rw [htab, hdefs]
    intro p hp
    rcases List.mem_append.mp hp with hp | hp
    · rw [alookup_append, inv.tablePending p hp]
    · simp at hp
      subst hp
      rw [alookup_append, hdnone]
      simp [alookup]

theorem engineInv_enqueue_env (cid : String) (callerId : Option Nat)
    (e : EngineState) (inv : EngineInv cid callerId e) (k : String)
    (hkc : k ≠ cid) (hk : alookup e.callResultPromises k = none) :
    EngineInv cid callerId (enqueueCallRequest e k).1 := by
  obtain ⟨h1, h2, h3, h4, h5⟩ := engineInv_enqueue_parts cid callerId e inv k hk
  obtain ⟨-, -, htab, -, -, -⟩ := enqueueCallRequest_spec e k hk
  have hcidlook : alookup (enqueueCallRequest e k).1.callResultPromises cid
      = alookup e.callResultPromises cid := by
    rw [htab, alookup_append]
    rcases hq : alookup e.callResultPromises cid with _ | j
    · simp [alookup, hkc]
    · rfl
  exact ⟨h1, h2, h3, h4, h5,
    fun id hid => hcidlook ▸ inv.callerTable id hid,
    fun hnone => hcidlook ▸ inv.noCidEntry hnone⟩

theorem engineInv_enqueue_caller (cid : String) (e : EngineState)
    (inv : EngineInv cid none e) :
    EngineInv cid (some e.nextId) (enqueueCallRequest e cid).1 := by
  have hk : alookup e.callResultPromises cid = none := inv.noCidEntry rfl
  obtain ⟨h1, h2, h3, h4, h5⟩ := engineInv_enqueue_parts cid none e inv cid hk
  obtain ⟨-, -, htab, -, -, -⟩ := enqueueCallRequest_spec e cid hk
  have hcidlook : alookup (enqueueCallRequest e cid).1.callResultPromises cid
      = some e.nextId := by
    rw [htab, alookup_append, hk]
    simp [alookup]
  refine ⟨h1, h2, h3, h4, h5, ?_, ?_⟩
  · intro id hid
    simp at hid
    subst hid
    right
    exact hcidlook
  · intro hnone
    exact absurd hnone (by simp)

theorem engineInv_processMessage (cid : String) (callerId : Option Nat)
    (e : EngineState) (inv : EngineInv cid callerId e) (m : SqsMessage) :
    EngineInv cid callerId (processMessage e m).1 := by
  obtain ⟨body⟩ := m
  cases body with
  | none => rw [processMessage_no_body]; exact inv
  | some ret =>
    have hkeys : ((aerase e.callResultPromises ret.CallId).map Prod.fst).Nodup :=
      ((aerase_sublist _ _).map _).nodup inv.keysNodup
    have hids : ((aerase e.callResultPromises ret.CallId).map Prod.snd).Nodup :=
      ((aerase_sublist _ _).map _).nodup inv.idsNodup
    have hcidlook : ∀ j, alookup (aerase e.callResultPromises ret.CallId) cid = some j →
        alookup e.callResultPromises cid = some j := by
      intro j hj
      by_cases hc : cid = ret.CallId
      · subst hc
        rw [alookup_aerase_self] at hj
        exact absurd hj (by simp)
      · rwa [alookup_aerase_ne hc] at hj
    have hcaller : ∀ id, callerId = some id →
        alookup (aerase e.callResultPromises ret.CallId) cid = none
        ∨ alookup (aerase e.callResultPromises ret.CallId) cid = some id := by
      intro id hid
      rcases hq : alookup (aerase e.callResultPromises ret.CallId) cid with _ | j
      · exact Or.inl rfl
      · rcases inv.callerTable id hid with hn | hs
        · exact absurd (hcidlook j hq) (by rw [hn]; simp)
        · right
          rw [hcidlook j hq] at hs
          exact hs
    have hnocid : callerId = none →
        alookup (aerase e.callResultPromises ret.CallId) cid = none := by
      intro hnone
      rcases hq : alookup (aerase e.callResultPromises ret.CallId) cid with _ | j
      · rfl
      · exact absurd (hcidlook j hq) (by rw [inv.noCidEntry hnone]; simp)
    rcases hq : alookup e.callResultPromises ret.CallId with _ | id
    · rw [processMessage_unmatched e ret hq]
      exact ⟨hkeys, hids,
        fun p hp => inv.tableFresh p (mem_of_mem_aerase hp).1,
        inv.dFresh,
        fun p hp => inv.tablePending p (mem_of_mem_aerase hp).1,
        hcaller, hnocid⟩
    · rw [processMessage_matched e ret id hq]
      have hmem : (ret.CallId, id) ∈ e.callResultPromises := alookup_eq_some_mem hq
      refine ⟨hkeys, hids, ?_, ?_, ?_, hcaller, hnocid⟩
      · exact fun p hp => inv.tableFresh p (mem_of_mem_aerase hp).1
      · intro i st hist
        have hist2 : alookup (aupdate e.deferreds id (fun st => settleResolve st ret)) i
            = some st := by simpa [resolveDeferred] using hist
        obtain ⟨w, hw⟩ := alookup_aupdate_domain hist2
        exact inv.dFresh i w hw
      · intro p hp
        obtain ⟨hpmem, hpne⟩ := mem_of_mem_aerase hp
        have hpid : p.2 ≠ id := by
          intro heq
          have := List.inj_on_of_nodup_map inv.idsNodup hpmem hmem
            (show Prod.snd p = Prod.snd (ret.CallId, id) by simpa using heq)
          exact hpne (by rw [this])
        rw [resolveDeferred, alookup_aupdate_ne _ hpid]
        exact inv.tablePending p hpmem

theorem engineInv_processBatch (cid : String) (callerId : Option Nat)
    (e : EngineState) (inv : EngineInv cid callerId e) (ms : List SqsMessage) :
    EngineInv cid callerId (processBatch e ms).1 := by
  induction ms generalizing e with
  | nil => exact inv
  | cons m rest ih =>
    simp only [processBatch]
    exact ih _ (engineInv_processMessage cid callerId e inv m)

theorem engineInv_cancelClear (cid : String) (callerId : Option Nat)
    (e : EngineState) (inv : EngineInv cid callerId e) :
    EngineInv cid callerId (cancelClear e) := by
  refine ⟨by simp [cancelClear], by simp [cancelClear], ?_, ?_, ?_, ?_, ?_⟩
  · intro p hp
    simp [cancelClear] at hp
  · intro i st hist
    rw [cancelClear_nextId]
    simp only [cancelClear] at hist
    obtain ⟨w, hw⟩ := foldReject_domain e.callResultPromises e.deferreds i st hist
    exact inv.dFresh i w hw
  · intro p hp
    simp [cancelClear] at hp
  · intro id _
    left
    rw [cancelClear_table]
    rfl
  · intro _
    rw [cancelClear_table]
    rfl

/-! ## System invariant -/

theorem alookup_append_of_some {κ α : Type} [DecidableEq κ] {l₁ : List (κ × α)}
    (l₂ : List (κ × α)) {k : κ} {v : α} (h : alookup l₁ k = some v) :
    alookup (l₁ ++ l₂) k = some v := by
  rw [alookup_append, h]

theorem startResultCollector_on (e : EngineState)
    (h1 : e.callResultPromises.isEmpty = false)
    (h2 : e.resultCollectorPromise = false) :
    startResultCollectorIfNeeded e = ({ e with resultCollectorPromise := true }, true) := by
  simp [startResultCollectorIfNeeded, h1, h2]

theorem startResultCollector_off_empty (e : EngineState)
    (h : e.callResultPromises.isEmpty = true) :
    startResultCollectorIfNeeded e = (e, false) := by
  simp [startResultCollectorIfNeeded, h]

theorem startResultCollector_off_flag (e : EngineState)
    (h : e.resultCollectorPromise = true) :
    startResultCollectorIfNeeded e = (e, false) := by
  simp [startResultCollectorIfNeeded, h]

/-- The whole-system invariant: the engine invariant, the collector-count
accounting (the promise field is set exactly when one collector instance
runs, and never more than one runs), and the caller/drain facts each claim
needs: a caller past its `await` has a resolved deferred and no table entry;
once the drain has started the table is empty, and once the drain can or did
return no collector instance runs. -/
structure SysInv (cid : String) (s : Sys) : Prop where
  eng : EngineInv cid s.callerId s.engine
  flagCount : s.engine.resultCollectorPromise = true ↔ s.collectorCount = 1
  countLe : s.collectorCount ≤ 1
  pcIdle : s.collector = .idle ↔ s.engine.resultCollectorPromise = false
  callerNone : s.caller = .start ↔ s.callerId = none
  resumedSettled : ∀ ret, s.caller = .resumed ret ∨ s.caller = .published ret →
      ∃ id, s.callerId = some id
        ∧ alookup s.engine.deferreds id = some (.resolved ret)
  failedSettled : s.caller = .publishFailed →
      ∃ id ret, s.callerId = some id
        ∧ alookup s.engine.deferreds id = some (.resolved ret)
  pastTable : (s.caller = .publishFailed
      ∨ ∃ ret, s.caller = .resumed ret ∨ s.caller = .published ret) →
      alookup s.engine.callResultPromises cid = none
  drainTable : s.drain ≠ .notStarted → s.engine.callResultPromises = []
  canReturnQuiet : s.drainCanReturn = true →
      s.drain ≠ .notStarted ∧ s.collectorCount = 0
  returnedQuiet : s.drain = .returned → s.collectorCount = 0

theorem sysInv_init (cid : String) : SysInv cid sysInit := by
  refine ⟨⟨?_, ?_, ?_, ?_, ?_, ?_, ?_⟩, ?_, ?_, ?_, ?_, ?_, ?_, ?_, ?_, ?_, ?_⟩ <;>
    simp [sysInit, alookup]

theorem sysInv_register (cid : String) (s : Sys) (inv : SysInv cid s)
    (h1 : s.caller = .start) (h2 : s.drain = .notStarted) :
    SysInv cid (registerEffect cid s) := by
  have hnone : s.callerId = none := inv.callerNone.mp h1
  have hk : alookup s.engine.callResultPromises cid = none := inv.eng.noCidEntry hnone
  obtain ⟨hid, hnext, htab, hdefs, hflag, hstart⟩ := enqueueCallRequest_spec s.engine cid hk
  have heng : EngineInv cid (some s.engine.nextId) (enqueueCallRequest s.engine cid).1 :=
    engineInv_enqueue_caller cid s.engine (hnone ▸ inv.eng)
  have hcount : s.collectorCount + (if (enqueueCallRequest s.engine cid).2.2 then 1 else 0)
      = 1 := by
    rw [hstart]
    cases hf : s.engine.resultCollectorPromise with
    | true => simpa using inv.flagCount.mp hf
    | false =>
      have hne : s.collectorCount ≠ 1 := fun hc => by
        have := inv.flagCount.mpr hc
        rw [hf] at this
        exact absurd this (by simp)
      have := inv.countLe
      simp
      omega
  refine ⟨?_, ?_, ?_, ?_, ?_, ?_, ?_, ?_, ?_, ?_, ?_⟩
  · show EngineInv cid (some (enqueueCallRequest s.engine cid).2.1)
      (enqueueCallRequest s.engine cid).1
    rw [hid]
    exact heng
  · show (enqueueCallRequest s.engine cid).1.resultCollectorPromise = true ↔ _ = 1
    rw [hflag]
    simpa using hcount
  · show s.collectorCount + (if (enqueueCallRequest s.engine cid).2.2 then 1 else 0) ≤ 1
    omega
  · show (if (enqueueCallRequest s.engine cid).2.2 then CollectorPC.atCheck
        else s.collector) = .idle
      ↔ (enqueueCallRequest s.engine cid).1.resultCollectorPromise = false
    rw [hflag, hstart]
    cases hf : s.engine.resultCollectorPromise with
    | true =>
      have : s.collector ≠ .idle := fun hc => by
        have := inv.pcIdle.mp hc
        rw [hf] at this
        exact absurd this (by simp)
      simp [this]
    | false => simp
  · show CallerPC.awaiting = .start ↔ some (enqueueCallRequest s.engine cid).2.1 = none
    simp
  · intro ret hret
    rcases hret with hret | hret <;> simp [registerEffect] at hret
  · intro hret
    simp [registerEffect] at hret
  · intro hret
    rcases hret with hret | ⟨ret, hret | hret⟩ <;> simp [registerEffect] at hret
  · intro hd
    simp [registerEffect, h2] at hd
  · intro hcr
    have hcr2 : s.drainCanReturn = true := hcr
    have := (inv.canReturnQuiet hcr2).1
    exact absurd h2 this
  · intro hd
    simp [registerEffect, h2] at hd

theorem sysInv_env (cid : String) (s : Sys) (other : String) (inv : SysInv cid s)
    (h1 : other ≠ cid) (h2 : s.drain = .notStarted)
    (h3 : alookup s.engine.callResultPromises other = none) :
    SysInv cid (envEnqueueEffect other s) := by
  obtain ⟨hid, hnext, htab, hdefs, hflag, hstart⟩ := enqueueCallRequest_spec s.engine other h3
  have heng : EngineInv cid s.callerId (enqueueCallRequest s.engine other).1 :=
    engineInv_enqueue_env cid s.callerId s.engine inv.eng other h1 h3
  have hcidlook : alookup (enqueueCallRequest s.engine other).1.callResultPromises cid
      = alookup s.engine.callResultPromises cid := by
    rw [htab, alookup_append]
    rcases hq : alookup s.engine.callResultPromises cid with _ | j
    · simp [alookup, h1]
    · rfl
  have hcount : s.collectorCount + (if (enqueueCallRequest s.engine other).2.2 then 1 else 0)
      = 1 := by
    rw [hstart]
    cases hf : s.engine.resultCollectorPromise with
    | true => simpa using inv.flagCount.mp hf
    | false =>
      have hne : s.collectorCount ≠ 1 := fun hc => by
        have := inv.flagCount.mpr hc
        rw [hf] at this
        exact absurd this (by simp)
      have := inv.countLe
      simp
      omega
  refine ⟨heng, ?_, ?_, ?_, ?_, ?_, ?_, ?_, ?_, ?_, ?_⟩
  · show (enqueueCallRequest s.engine other).1.resultCollectorPromise = true ↔ _ = 1
    rw [hflag]
    simpa using hcount
  · show s.collectorCount + (if (enqueueCallRequest s.engine other).2.2 then 1 else 0) ≤ 1
    omega
  · show (if (enqueueCallRequest s.engine other).2.2 then CollectorPC.atCheck
        else s.collector) = .idle
      ↔ (enqueueCallRequest s.engine other).1.resultCollectorPromise = false
    rw [hflag, hstart]
    cases hf : s.engine.resultCollectorPromise with
    | true =>
      have : s.collector ≠ .idle := fun hc => by
        have := inv.pcIdle.mp hc
        rw [hf] at this
        exact absurd this (by simp)
      simp [this]
    | false => simp
  · exact inv.callerNone
  · intro ret hret
    have hret2 : s.caller = .resumed ret ∨ s.caller = .published ret := hret
    obtain ⟨id, hcid, hlook⟩ := inv.resumedSettled ret hret2
    refine ⟨id, hcid, ?_⟩
    show alookup (enqueueCallRequest s.engine other).1.deferreds id
      = some (.resolved ret)
    rw [hdefs]
    exact alookup_append_of_some _ hlook
  · intro hret
    have hret2 : s.caller = .publishFailed := hret
    obtain ⟨id, ret, hcid, hlook⟩ := inv.failedSettled hret2
    refine ⟨id, ret, hcid, ?_⟩
    show alookup (enqueueCallRequest s.engine other).1.deferreds id
      = some (.resolved ret)
    rw [hdefs]
    exact alookup_append_of_some _ hlook
  · intro hpast
    have hpast2 : s.caller = .publishFailed
        ∨ ∃ ret, s.caller = .resumed ret ∨ s.caller = .published ret := hpast
    show alookup (enqueueCallRequest s.engine other).1.callResultPromises cid = none
    rw [hcidlook]
    exact inv.pastTable hpast2
  · intro hd
    simp [envEnqueueEffect, h2] at hd
  · intro hcr
    have hcr2 : s.drainCanReturn = true := hcr
    have := (inv.canReturnQuiet hcr2).1
    exact absurd h2 this
  · intro hd
    simp [envEnqueueEffect, h2] at hd

theorem sysInv_resume (cid : String) (s : Sys) (id : Nat) (ret : FunctionReturn)
    (inv : SysInv cid s) (h1 : s.caller = .awaiting) (h2 : s.callerId = some id)
    (h3 : alookup s.engine.deferreds id = some (.resolved ret)) :
    SysInv cid { s with caller := .resumed ret } := by
  have htab : alookup s.engine.callResultPromises cid = none := by
    rcases inv.eng.callerTable id h2 with hn | hs
    · exact hn
    · have hmem := alookup_eq_some_mem hs
      have hp : alookup s.engine.deferreds id = some .pending :=
        inv.eng.tablePending _ hmem
      rw [h3] at hp
      exact absurd hp (by simp)
  refine ⟨inv.eng, inv.flagCount, inv.countLe, inv.pcIdle, ?_, ?_, ?_, ?_,
    inv.drainTable, inv.canReturnQuiet, inv.returnedQuiet⟩
  · constructor
    · intro h
      have h' : CallerPC.resumed ret = .start := h
      exact absurd h' (by simp)
    · intro h
      have h' : s.callerId = none := h
      rw [h2] at h'
      exact absurd h' (by simp)
  · intro ret2 hret
    have h' : CallerPC.resumed ret = .resumed ret2
        ∨ CallerPC.resumed ret = .published ret2 := hret
    rcases h' with h' | h'
    · have : ret = ret2 := by injection h'
      subst this
      exact ⟨id, h2, h3⟩
    · exact absurd h' (by simp)
  · intro hret
    have h' : CallerPC.resumed ret = .publishFailed := hret
    exact absurd h' (by simp)
  · intro _
    exact htab

theorem sysInv_cancel (cid : String) (s : Sys) (id : Nat) (err : String)
    (inv : SysInv cid s) (h1 : s.caller = .awaiting) (h2 : s.callerId = some id)
    (h3 : alookup s.engine.deferreds id = some (.rejected err)) :
    SysInv cid { s with caller := .cancelled } := by
  refine ⟨inv.eng, inv.flagCount, inv.countLe, inv.pcIdle, ?_, ?_, ?_, ?_,
    inv.drainTable, inv.canReturnQuiet, inv.returnedQuiet⟩
  · constructor
    · intro h
      have h' : CallerPC.cancelled = .start := h
      exact absurd h' (by simp)
    · intro h
      have h' : s.callerId = none := h
      rw [h2] at h'
      exact absurd h' (by simp)
  · intro ret2 hret
    have h' : CallerPC.cancelled = .resumed ret2
        ∨ CallerPC.cancelled = .published ret2 := hret
    rcases h' with h' | h' <;> exact absurd h' (by simp)
  · intro hret
    have h' : CallerPC.cancelled = .publishFailed := hret
    exact absurd h' (by simp)
  · intro hpast
    have h' : CallerPC.cancelled = .publishFailed
        ∨ ∃ ret2, CallerPC.cancelled = .resumed ret2
          ∨ CallerPC.cancelled = .published ret2 := hpast
    rcases h' with h' | ⟨ret2, h' | h'⟩ <;> exact absurd h' (by simp)

theorem sysInv_publish_ok (cid : String) (s : Sys) (ret : FunctionReturn)
    (inv : SysInv cid s) (h : s.caller = .resumed ret) :
    SysInv cid { s with caller := .published ret } := by
  obtain ⟨id, hcid, hlook⟩ := inv.resumedSettled ret (Or.inl h)
  refine ⟨inv.eng, inv.flagCount, inv.countLe, inv.pcIdle, ?_, ?_, ?_, ?_,
    inv.drainTable, inv.canReturnQuiet, inv.returnedQuiet⟩
  · constructor
    · intro hh
      have h' : CallerPC.published ret = .start := hh
      exact absurd h' (by simp)
    · intro hh
      have h' : s.callerId = none := hh
      rw [hcid] at h'
      exact absurd h' (by simp)
  · intro ret2 hret
    have h' : CallerPC.published ret = .resumed ret2
        ∨ CallerPC.published ret = .published ret2 := hret
    rcases h' with h' | h'
    · exact absurd h' (by simp)
    · have : ret = ret2 := by injection h'
      subst this
      exact ⟨id, hcid, hlook⟩
  · intro hret
    have h' : CallerPC.published ret = .publishFailed := hret
    exact absurd h' (by simp)
  · intro _
    exact inv.pastTable (Or.inr ⟨ret, Or.inl h⟩)

theorem sysInv_publish_fail (cid : String) (s : Sys) (ret : FunctionReturn)
    (inv : SysInv cid s) (h : s.caller = .resumed ret) :
    SysInv cid { s with caller := .publishFailed } := by
  obtain ⟨id, hcid, hlook⟩ := inv.resumedSettled ret (Or.inl h)
  refine ⟨inv.eng, inv.flagCount, inv.countLe, inv.pcIdle, ?_, ?_, ?_, ?_,
    inv.drainTable, inv.canReturnQuiet, inv.returnedQuiet⟩
  · constructor
    · intro hh
      have h' : CallerPC.publishFailed = .start := hh
      exact absurd h' (by simp)
    · intro hh
      have h' : s.callerId = none := hh
      rw [hcid] at h'
      exact absurd h' (by simp)
  · intro ret2 hret
    have h' : CallerPC.publishFailed = .resumed ret2
        ∨ CallerPC.publishFailed = .published ret2 := hret
    rcases h' with h' | h' <;> exact absurd h' (by simp)
  · intro _
    exact ⟨id, ret, hcid, hlook⟩
  · intro _
    exact inv.pastTable (Or.inr ⟨ret, Or.inl h⟩)

theorem sysInv_collector_exit (cid : String) (s : Sys) (inv : SysInv cid s)
    (h1 : s.collector = .atCheck)
    (h2 : s.engine.callResultPromises.isEmpty = true) :
    SysInv cid (collectorExitEffect s) := by
  have hflag : s.engine.resultCollectorPromise = true := by
    cases hf : s.engine.resultCollectorPromise with
    | false =>
      have := inv.pcIdle.mpr hf
      rw [h1] at this
      exact absurd this (by simp)
    | true => rfl
  have hcount : s.collectorCount = 1 := inv.flagCount.mp hflag
  refine ⟨?_, ?_, ?_, ?_, ?_, ?_, ?_, ?_, ?_, ?_, ?_⟩
  · exact ⟨inv.eng.keysNodup, inv.eng.idsNodup, inv.eng.tableFresh, inv.eng.dFresh,
      inv.eng.tablePending, inv.eng.callerTable, inv.eng.noCidEntry⟩
  · constructor
    · intro hh
      have h' : (false : Bool) = true := hh
      exact absurd h' (by simp)
    · intro hh
      have h' : s.collectorCount - 1 = 1 := hh
      omega
  · show s.collectorCount - 1 ≤ 1
    omega
  · constructor
    · intro _; rfl
    · intro _; rfl
  · exact inv.callerNone
  · exact inv.resumedSettled
  · exact inv.failedSettled
  · exact inv.pastTable
  · exact inv.drainTable
  · intro hcr
    have hcr' : (if s.drain = .waitingCollector then true else s.drainCanReturn)
        = true := hcr
    by_cases hd : s.drain = .waitingCollector
    · refine ⟨?_, ?_⟩
      · show s.drain ≠ .notStarted
        rw [hd]; simp
      · show s.collectorCount - 1 = 0
        omega
    · rw [if_neg hd] at hcr'
      have := (inv.canReturnQuiet hcr').2
      omega
  · intro hd
    show s.collectorCount - 1 = 0
    omega

theorem sysInv_collector_continue (cid : String) (s : Sys) (inv : SysInv cid s)
    (h1 : s.collector = .atCheck)
    (h2 : s.engine.callResultPromises.isEmpty = false) :
    SysInv cid { s with collector := .waitingBatch } := by
  have hflag : s.engine.resultCollectorPromise = true := by
    cases hf : s.engine.resultCollectorPromise with
    | false =>
      have := inv.pcIdle.mpr hf
      rw [h1] at this
      exact absurd this (by simp)
    | true => rfl
  refine ⟨inv.eng, inv.flagCount, inv.countLe, ?_, inv.callerNone, inv.resumedSettled,
    inv.failedSettled, inv.pastTable, inv.drainTable, inv.canReturnQuiet,
    inv.returnedQuiet⟩
  constructor
  · intro hh
    have h' : CollectorPC.waitingBatch = .idle := hh
    exact absurd h' (by simp)
  · intro hh
    have h' : s.engine.resultCollectorPromise = false := hh
    rw [hflag] at h'
    exact absurd h' (by simp)

theorem sysInv_deliver (cid : String) (s : Sys) (ms : List SqsMessage)
    (inv : SysInv cid s) (h : s.collector = .waitingBatch) :
    SysInv cid { s with engine := (processBatch s.engine ms).1, collector := .atCheck } := by
  have hflag : s.engine.resultCollectorPromise = true := by
    cases hf : s.engine.resultCollectorPromise with
    | false =>
      have := inv.pcIdle.mpr hf
      rw [h] at this
      exact absurd this (by simp)
    | true => rfl
  refine ⟨?_, ?_, inv.countLe, ?_, inv.callerNone, ?_, ?_, ?_, ?_, ?_, ?_⟩
  · exact engineInv_processBatch cid s.callerId s.engine inv.eng ms
  · show (processBatch s.engine ms).1.resultCollectorPromise = true ↔ _
    rw [processBatch_flag]
    exact inv.flagCount
  · constructor
    · intro hh
      have h' : CollectorPC.atCheck = .idle := hh
      exact absurd h' (by simp)
    · intro hh
      have h' : (processBatch s.engine ms).1.resultCollectorPromise = false := hh
      rw [processBatch_flag, hflag] at h'
      exact absurd h' (by simp)
  · intro ret hret
    have hret2 : s.caller = .resumed ret ∨ s.caller = .published ret := hret
    obtain ⟨id, hcid, hlook⟩ := inv.resumedSettled ret hret2
    exact ⟨id, hcid, processBatch_settled_stable s.engine ms id _ (by simp) hlook⟩
  · intro hret
    have hret2 : s.caller = .publishFailed := hret
    obtain ⟨id, ret, hcid, hlook⟩ := inv.failedSettled hret2
    exact ⟨id, ret, hcid, processBatch_settled_stable s.engine ms id _ (by simp) hlook⟩
  · intro hpast
    have hpast2 : s.caller = .publishFailed
        ∨ ∃ ret, s.caller = .resumed ret ∨ s.caller = .published ret := hpast
    exact processBatch_lookup_none s.engine ms cid (inv.pastTable hpast2)
  · intro hd
    have hd2 : s.drain ≠ .notStarted := hd
    exact processBatch_table_nil s.engine ms (inv.drainTable hd2)
  · exact inv.canReturnQuiet
  · exact inv.returnedQuiet

theorem sysInv_timer (cid : String) (s : Sys) (inv : SysInv cid s)
    (h : s.timerPending = true) : SysInv cid (timerEffect s) := by
  rcases hemp : s.engine.callResultPromises.isEmpty with _ | _
  case false =>
    cases hf : s.engine.resultCollectorPromise with
    | true =>
      have heq := startResultCollector_off_flag s.engine hf
      refine ⟨?_, ?_, ?_, ?_, ?_, ?_, ?_, ?_, ?_, ?_, ?_⟩ <;>
        simp only [timerEffect, heq, if_false, Bool.false_eq_true, Nat.add_zero]
      · exact inv.eng
      · exact inv.flagCount
      · exact inv.countLe
      · exact inv.pcIdle
      · exact inv.callerNone
      · exact inv.resumedSettled
      · exact inv.failedSettled
      · exact inv.pastTable
      · exact inv.drainTable
      · exact inv.canReturnQuiet
      · exact inv.returnedQuiet
    | false =>
      have heq := startResultCollector_on s.engine hemp hf
      have hcount : s.collectorCount = 0 := by
        have hne : s.collectorCount ≠ 1 := fun hc => by
          have := inv.flagCount.mpr hc
          rw [hf] at this
          exact absurd this (by simp)
        have := inv.countLe
        omega
      refine ⟨?_, ?_, ?_, ?_, ?_, ?_, ?_, ?_, ?_, ?_, ?_⟩ <;>
        simp only [timerEffect, heq, if_true]
      · exact ⟨inv.eng.keysNodup, inv.eng.idsNodup, inv.eng.tableFresh, inv.eng.dFresh,
          inv.eng.tablePending, inv.eng.callerTable, inv.eng.noCidEntry⟩
      · simp
        omega
      · show s.collectorCount + 1 ≤ 1
        omega
      · constructor
        · intro hh
          have h' : CollectorPC.atCheck = .idle := hh
          exact absurd h' (by simp)
        · intro hh
          have h' : (true : Bool) = false := hh
          exact absurd h' (by simp)
      · exact inv.callerNone
      · exact inv.resumedSettled
      · exact inv.failedSettled
      · exact inv.pastTable
      · exact inv.drainTable
      · intro hcr
        have hcr2 : s.drainCanReturn = true := hcr
        have htab := inv.drainTable (inv.canReturnQuiet hcr2).1
        rw [htab] at hemp
        simp at hemp
      · intro hd
        have hd2 : s.drain = .returned := hd
        have htab := inv.drainTable (by rw [hd2]; simp)
        rw [htab] at hemp
        simp at hemp
  case true =>
    have heq := startResultCollector_off_empty s.engine hemp
    refine ⟨?_, ?_, ?_, ?_, ?_, ?_, ?_, ?_, ?_, ?_, ?_⟩ <;>
      simp only [timerEffect, heq, if_false, Bool.false_eq_true, Nat.add_zero]
    · exact inv.eng
    · exact inv.flagCount
    · exact inv.countLe
    · exact inv.pcIdle
    · exact inv.callerNone
    · exact inv.resumedSettled
    · exact inv.failedSettled
    · exact inv.pastTable
    · exact inv.drainTable
    · exact inv.canReturnQuiet
    · exact inv.returnedQuiet

theorem sysInv_drain_clear (cid : String) (s : Sys) (inv : SysInv cid s)
    (h : s.drain = .notStarted) : SysInv cid (drainClearEffect s) := by
  refine ⟨?_, ?_, inv.countLe, ?_, inv.callerNone, ?_, ?_, ?_, ?_, ?_, ?_⟩
  · exact engineInv_cancelClear cid s.callerId s.engine inv.eng
  · show (cancelClear s.engine).resultCollectorPromise = true ↔ _
    rw [cancelClear_flag]
    exact inv.flagCount
  · show s.collector = .idle ↔ (cancelClear s.engine).resultCollectorPromise = false
    rw [cancelClear_flag]
    exact inv.pcIdle
  · intro ret hret
    have hret2 : s.caller = .resumed ret ∨ s.caller = .published ret := hret
    obtain ⟨id, hcid, hlook⟩ := inv.resumedSettled ret hret2
    exact ⟨id, hcid, cancelClear_settled_stable s.engine id _ (by simp) hlook⟩
  · intro hret
    have hret2 : s.caller = .publishFailed := hret
    obtain ⟨id, ret, hcid, hlook⟩ := inv.failedSettled hret2
    exact ⟨id, ret, hcid, cancelClear_settled_stable s.engine id _ (by simp) hlook⟩
  · intro _
    show alookup (cancelClear s.engine).callResultPromises cid = none
    rw [cancelClear_table]
    rfl
  · intro _
    exact cancelClear_table s.engine
  · intro hcr
    have hcr2 : s.drainCanReturn = true := hcr
    exact absurd h (inv.canReturnQuiet hcr2).1
  · intro hd
    have hd2 : (if s.engine.resultCollectorPromise then DrainPC.waitingCollector
        else DrainPC.returned) = .returned := hd
    cases hf : s.engine.resultCollectorPromise with
    | true =>
      rw [hf] at hd2
      simp at hd2
    | false =>
      have hne : s.collectorCount ≠ 1 := fun hc => by
        have := inv.flagCount.mpr hc
        rw [hf] at this
        exact absurd this (by simp)
      have := inv.countLe
      show s.collectorCount = 0
      omega

theorem sysInv_drain_return (cid : String) (s : Sys) (inv : SysInv cid s)
    (h1 : s.drain = .waitingCollector) (h2 : s.drainCanReturn = true) :
    SysInv cid { s with drain := .returned } := by
  have hcount := (inv.canReturnQuiet h2).2
  refine ⟨inv.eng, inv.flagCount, inv.countLe, inv.pcIdle, inv.callerNone,
    inv.resumedSettled, inv.failedSettled, inv.pastTable, ?_, ?_, ?_⟩
  · intro _
    exact inv.drainTable (by rw [h1]; simp)
  · intro _
    refine ⟨?_, hcount⟩
    show DrainPC.returned ≠ .notStarted
    simp
  · intro _
    exact hcount

theorem sysInv_step (cid : String) (s s2 : Sys) (inv : SysInv cid s)
    (h : Step cid s s2) : SysInv cid s2 := by
  cases h with
  | caller_register h1 h2 => exact sysInv_register cid s inv h1 h2
  | env_enqueue other h1 h2 h3 => exact sysInv_env cid s other inv h1 h2 h3
  | caller_resume id ret h1 h2 h3 => exact sysInv_resume cid s id ret inv h1 h2 h3
  | caller_cancel id err h1 h2 h3 => exact sysInv_cancel cid s id err inv h1 h2 h3
  | caller_publish_ok ret h => exact sysInv_publish_ok cid s ret inv h
  | caller_publish_fail ret h => exact sysInv_publish_fail cid s ret inv h
  | collector_exit h1 h2 => exact sysInv_collector_exit cid s inv h1 h2
  | collector_continue h1 h2 => exact sysInv_collector_continue cid s inv h1 h2
  | collector_deliver ms h => exact sysInv_deliver cid s ms inv h
  | timer_fire h => exact sysInv_timer cid s inv h
  | drain_clear h => exact sysInv_drain_clear cid s inv h
  | drain_return h1 h2 => exact sysInv_drain_return cid s inv h1 h2

theorem sysInv_reachable (cid : String) (s : Sys) (h : Reachable cid s) :
    SysInv cid s := by
  induction h with
  | refl => exact sysInv_init cid
  | tail _ hstep ih => exact sysInv_step cid _ _ ih hstep

/-! ## Claims C1, C4, C5, C6 over the trace model -/

/-- C1 as the code has it: the ordering is inverted.  Whenever the caller of
the queue path has reached its publish instruction (it resumed from the
`await` with response `ret`) or is past it, its future has ALREADY settled —
resolved with that very response — because `cloudifyWithResponse` awaits
`enqueueCallRequest(...).promise` before `sns.publish(...)`.  The claim's
"the future can only settle after the publish has been issued" is the
converse of what holds. -/
theorem C1_publish_only_after_settlement (cid : String) (s : Sys)
    (hr : Reachable cid s) (ret : FunctionReturn)
    (hp : s.caller = .resumed ret ∨ s.caller = .published ret) :
    ∃ id, s.callerId = some id
      ∧ alookup s.engine.deferreds id = some (.resolved ret) := by
  have inv := sysInv_reachable cid s hr
  exact inv.resumedSettled ret hp

/-- C4: in every reachable state, running the synchronous part of
`cancelWithoutCleanup` rejects every tabled PendingCall's deferred with the
cancellation error (a rejection, distinguishable from a remote function
failure, which arrives as a resolution) and clears the table; and whenever
the drain has returned, no collector instance is running and the table is
empty — and stays so, since this holds of every reachable state. -/
theorem C4_drain_rejects_clears_and_waits (cid : String) (s : Sys)
    (hr : Reachable cid s) :
    (∀ p ∈ s.engine.callResultPromises,
        alookup (cancelClear s.engine).deferreds p.2
          = some (.rejected cancellationMessage))
    ∧ (cancelClear s.engine).callResultPromises = []
    ∧ (s.drain = .returned → s.collectorCount = 0
        ∧ s.engine.callResultPromises = [])
    ∧ (∀ ret, DeferredState.rejected cancellationMessage ≠ .resolved ret) := by
  have inv := sysInv_reachable cid s hr
  refine ⟨?_, cancelClear_table s.engine, ?_, ?_⟩
  · exact cancelClear_rejects s.engine inv.eng.idsNodup inv.eng.tablePending
  · intro hd
    exact ⟨inv.returnedQuiet hd, inv.drainTable (by rw [hd]; simp)⟩
  · intro ret h
    simp at h

/-- C5 as amended: a step lowers the number of running collector instances
only from the top-of-loop check with an empty table (there is no stop
control message in this engine); an empty table at the check does make the
loop exit; and a later-arriving call's enqueue restarts a collector when
none is running, so later calls are still served. -/
theorem C5_loop_exit_and_restart (cid : String) (s s2 : Sys) (h : Step cid s s2) :
    (s2.collectorCount < s.collectorCount →
      s.engine.callResultPromises.isEmpty = true ∧ s.collector = .atCheck)
    ∧ (s.collector = .atCheck → s.engine.callResultPromises.isEmpty = true →
        Step cid s (collectorExitEffect s))
    ∧ (∀ other, other ≠ cid → s.drain = .notStarted →
        alookup s.engine.callResultPromises other = none →
        s.engine.resultCollectorPromise = false →
        Step cid s (envEnqueueEffect other s)
        ∧ (envEnqueueEffect other s).collectorCount = s.collectorCount + 1
        ∧ (envEnqueueEffect other s).collector = .atCheck) := by
  refine ⟨?_, ?_, ?_⟩
  · intro hlt
    cases h with
    | caller_register h1 h2 =>
      have hge : s.collectorCount ≤ (registerEffect cid s).collectorCount := by
        show s.collectorCount ≤ s.collectorCount + _
        omega
      omega
    | env_enqueue other h1 h2 h3 =>
      have hge : s.collectorCount ≤ (envEnqueueEffect other s).collectorCount := by
        show s.collectorCount ≤ s.collectorCount + _
        omega
      omega
    | caller_resume id ret h1 h2 h3 => exact absurd hlt (by simp)
    | caller_cancel id err h1 h2 h3 => exact absurd hlt (by simp)
    | caller_publish_ok ret hh => exact absurd hlt (by simp)
    | caller_publish_fail ret hh => exact absurd hlt (by simp)
    | collector_exit h1 h2 => exact ⟨h2, h1⟩
    | collector_continue h1 h2 => exact absurd hlt (by simp)
    | collector_deliver ms hh => exact absurd hlt (by simp)
    | timer_fire hh =>
      have hge : s.collectorCount ≤ (timerEffect s).collectorCount := by
        show s.collectorCount ≤ s.collectorCount + _
        omega
      omega
    | drain_clear hh => exact absurd hlt (by simp [drainClearEffect])
    | drain_return h1 h2 => exact absurd hlt (by simp)
  · intro h1 h2
    exact Step.collector_exit s h1 h2
  · intro other h1 h2 h3 hflag
    obtain ⟨-, -, -, -, -, hstart⟩ := enqueueCallRequest_spec s.engine other h3
    rw [hflag] at hstart
    refine ⟨Step.env_enqueue s other h1 h2 h3, ?_, ?_⟩
    · show s.collectorCount + (if (enqueueCallRequest s.engine other).2.2 then 1 else 0)
        = s.collectorCount + 1
      rw [hstart]
      simp
    · show (if (enqueueCallRequest s.engine other).2.2 then CollectorPC.atCheck
        else s.collector) = .atCheck
      rw [hstart]
      simp

/-- C6 as the code has it: a publish failure can only happen after the
caller resumed from its `await`, at which point its deferred is already
RESOLVED with a response (not settled to an error by the failure), and the
table entry for the CallId is already gone — removed earlier by the
collector when the response was matched, not by any publish-failure handler
(none exists in the source). -/
theorem C6_publish_failure_aftermath (cid : String) (s : Sys)
    (hr : Reachable cid s) (hf : s.caller = .publishFailed) :
    (∃ id ret, s.callerId = some id
        ∧ alookup s.engine.deferreds id = some (.resolved ret))
    ∧ alookup s.engine.callResultPromises cid = none := by
  have inv := sysInv_reachable cid s hr
  exact ⟨inv.failedSettled hf, inv.pastTable (Or.inl hf)⟩

/-! ## Claim C10: single collector, single garbage collection -/

theorem gcInv_step (g g2 : GCSys)
    (ih : g.active ≤ 1 ∧ (g.garbageCollectorRunning = true ↔ g.active = 1))
    (h : GCStep g g2) :
    g2.active ≤ 1 ∧ (g2.garbageCollectorRunning = true ↔ g2.active = 1) := by
  cases h with
  | invoke =>
    cases hb : g.garbageCollectorRunning with
    | true => simpa [gcInvokeEffect, hb] using ih
    | false =>
      have hz : g.active = 0 := by
        rcases ih with ⟨hle, hiff⟩
        have : g.active ≠ 1 := fun hc => by
          have := hiff.mpr hc
          rw [hb] at this
          exact absurd this (by simp)
        omega
      simp [gcInvokeEffect, hb, hz]
  | finishBody ok hac =>
    rcases ih with ⟨hle, hiff⟩
    constructor
    · show g.active - 1 ≤ 1
      omega
    · constructor
      · intro hh
        have h' : (false : Bool) = true := hh
        exact absurd h' (by simp)
      · intro hh
        have h' : g.active - 1 = 1 := hh
        omega

theorem gcInv_reachable (g : GCSys) (hg : GCReach g) :
    g.active ≤ 1 ∧ (g.garbageCollectorRunning = true ↔ g.active = 1) := by
  induction hg with
  | refl => simp [gcInit]
  | tail _ hstep ih => exact gcInv_step _ _ ih hstep

/-- C10: in every reachable engine state at most one result collector runs
and the `resultCollectorPromise` field is set exactly while one does; in
every reachable garbage-collector state at most one collection body runs,
the `garbageCollectorRunning` flag is set exactly while one does, and the
`finally` reset clears the flag whether the collection succeeded or threw. -/
theorem C10_single_collector_single_gc (cid : String) (s : Sys) (g : GCSys)
    (hr : Reachable cid s) (hg : GCReach g) :
    (s.collectorCount ≤ 1
      ∧ (s.engine.resultCollectorPromise = true ↔ s.collectorCount = 1))
    ∧ (g.active ≤ 1 ∧ (g.garbageCollectorRunning = true ↔ g.active = 1))
    ∧ (∀ ok : Bool, (gcFinishEffect ok g).garbageCollectorRunning = false) := by
  have inv := sysInv_reachable cid s hr
  exact ⟨⟨inv.countLe, inv.flagCount⟩, gcInv_reachable g hg, fun ok => rfl⟩

/-! ## Concrete traces for the witnesses and counterexamples -/

/-- The response the backend sends for the distinguished call "c0". -/
def ret0 : FunctionReturn := ⟨"c0", "returned", "v"⟩

/-- After the caller registered its call (collector started). -/
def traceS1 : Sys := registerEffect "c0" sysInit

/-- The collector passed its non-empty check and long-polls. -/
def traceS2 : Sys := { traceS1 with collector := .waitingBatch }

/-- A batch holding the response for "c0" was delivered and processed. -/
def traceS3 : Sys :=
  { traceS2 with
    engine := (processBatch traceS2.engine [⟨some ret0⟩]).1
    collector := .atCheck }

/-- The caller resumed from its `await` with the response in hand. -/
def traceS4 : Sys := { traceS3 with caller := .resumed ret0 }

/-- ... and then issued the publish (which succeeded). -/
def traceS5 : Sys := { traceS4 with caller := .published ret0 }

/-- ... or issued the publish and it failed. -/
def traceS6 : Sys := { traceS4 with caller := .publishFailed }

theorem reach_traceS1 : Reachable "c0" traceS1 :=
  Relation.ReflTransGen.tail Relation.ReflTransGen.refl
    (Step.caller_register sysInit rfl rfl)

theorem reach_traceS2 : Reachable "c0" traceS2 :=
  Relation.ReflTransGen.tail reach_traceS1
    (Step.collector_continue traceS1 rfl rfl)

theorem reach_traceS3 : Reachable "c0" traceS3 :=
  Relation.ReflTransGen.tail reach_traceS2
    (Step.collector_deliver traceS2 [⟨some ret0⟩] rfl)

theorem reach_traceS4 : Reachable "c0" traceS4 :=
  Relation.ReflTransGen.tail reach_traceS3
    (Step.caller_resume traceS3 0 ret0 rfl rfl (by decide))

theorem reach_traceS5 : Reachable "c0" traceS5 :=
  Relation.ReflTransGen.tail reach_traceS4
    (Step.caller_publish_ok traceS4 ret0 rfl)

theorem reach_traceS6 : Reachable "c0" traceS6 :=
  Relation.ReflTransGen.tail reach_traceS4
    (Step.caller_publish_fail traceS4 ret0 rfl)

/-- Drain invoked while the call "c0" is outstanding and the collector runs. -/
def traceD1 : Sys := drainClearEffect traceS1

/-- The collector observed the now-empty table and exited. -/
def traceD2 : Sys := collectorExitEffect traceD1

/-- The drain's `await` resumed: `cancelWithoutCleanup` returned. -/
def traceD3 : Sys := { traceD2 with drain := .returned }

theorem reach_traceD1 : Reachable "c0" traceD1 :=
  Relation.ReflTransGen.tail reach_traceS1 (Step.drain_clear traceS1 rfl)

theorem reach_traceD2 : Reachable "c0" traceD2 :=
  Relation.ReflTransGen.tail reach_traceD1
    (Step.collector_exit traceD1 rfl rfl)

theorem reach_traceD3 : Reachable "c0" traceD3 :=
  Relation.ReflTransGen.tail reach_traceD2
    (Step.drain_return traceD2 rfl rfl)

/-- Witness for C1: at `traceS5` the publish has been issued and the call's
deferred is already resolved with the response. -/
theorem C1_witness :
    ∃ id, traceS5.callerId = some id
      ∧ alookup traceS5.engine.deferreds id = some (.resolved ret0) :=
  C1_publish_only_after_settlement "c0" traceS5 reach_traceS5 ret0 (Or.inr rfl)

/-- Witness for C4 at the fully drained state `traceD3`. -/
theorem C4_witness :
    (∀ p ∈ traceD3.engine.callResultPromises,
        alookup (cancelClear traceD3.engine).deferreds p.2
          = some (.rejected cancellationMessage))
    ∧ (cancelClear traceD3.engine).callResultPromises = []
    ∧ (traceD3.drain = .returned → traceD3.collectorCount = 0
        ∧ traceD3.engine.callResultPromises = [])
    ∧ (∀ ret, DeferredState.rejected cancellationMessage ≠ .resolved ret) :=
  C4_drain_rejects_clears_and_waits "c0" traceD3 reach_traceD3

/-- Counterexample to C5 as stated: at the reachable state `traceS3` the
table is momentarily empty (the one outstanding call was just answered) and
the collector loop exits on its very next check — one collector was running,
none is afterwards — although no "stop" control message exists anywhere in
this engine (the model has no such message because the source has none). -/
theorem C5_counterexample :
    Reachable "c0" traceS3
    ∧ Step "c0" traceS3 (collectorExitEffect traceS3)
    ∧ traceS3.engine.callResultPromises.isEmpty = true
    ∧ traceS3.collectorCount = 1
    ∧ (collectorExitEffect traceS3).collectorCount = 0 :=
  ⟨reach_traceS3, Step.collector_exit traceS3 rfl rfl, rfl, rfl, rfl⟩

/-- Witness for C5's amended statement, at the same exit step. -/
theorem C5_witness :
    ((collectorExitEffect traceS3).collectorCount < traceS3.collectorCount →
      traceS3.engine.callResultPromises.isEmpty = true
      ∧ traceS3.collector = .atCheck)
    ∧ (traceS3.collector = .atCheck →
        traceS3.engine.callResultPromises.isEmpty = true →
        Step "c0" traceS3 (collectorExitEffect traceS3))
    ∧ (∀ other, other ≠ "c0" → traceS3.drain = .notStarted →
        alookup traceS3.engine.callResultPromises other = none →
        traceS3.engine.resultCollectorPromise = false →
        Step "c0" traceS3 (envEnqueueEffect other traceS3)
        ∧ (envEnqueueEffect other traceS3).collectorCount
            = traceS3.collectorCount + 1
        ∧ (envEnqueueEffect other traceS3).collector = .atCheck) :=
  C5_loop_exit_and_restart "c0" traceS3 (collectorExitEffect traceS3)
    (Step.collector_exit traceS3 rfl rfl)

/-- Witness for C6 at `traceS6`, where the publish failed. -/
theorem C6_witness :
    (∃ id ret, traceS6.callerId = some id
        ∧ alookup traceS6.engine.deferreds id = some (.resolved ret))
    ∧ alookup traceS6.engine.callResultPromises "c0" = none :=
  C6_publish_failure_aftermath "c0" traceS6 reach_traceS6 rfl

/-- Witness for C10 with one running collector and one running collection. -/
theorem C10_witness :
    (traceS1.collectorCount ≤ 1
      ∧ (traceS1.engine.resultCollectorPromise = true ↔ traceS1.collectorCount = 1))
    ∧ ((gcInvokeEffect gcInit).active ≤ 1
      ∧ ((gcInvokeEffect gcInit).garbageCollectorRunning = true
          ↔ (gcInvokeEffect gcInit).active = 1))
    ∧ (∀ ok : Bool,
        (gcFinishEffect ok (gcInvokeEffect gcInit)).garbageCollectorRunning = false) :=
  C10_single_collector_single_gc "c0" traceS1 (gcInvokeEffect gcInit) reach_traceS1
    (Relation.ReflTransGen.tail Relation.ReflTransGen.refl (GCStep.invoke gcInit))

/-! ## Claim C7: the drain protocol (spec-modelled) -/

theorem stopInv_step (s s2 : StopSys)
    (ih : (s.stopCall = .returned → s.phase = .stopped)
      ∧ (s.phase = .stopped → s.pending = []))
    (h : StopStep s s2) :
    (s2.stopCall = .returned → s2.phase = .stopped)
    ∧ (s2.phase = .stopped → s2.pending = []) := by
  cases h with
  | submit id hph =>
    constructor
    · intro hr
      have hr2 : s.stopCall = .returned := hr
      exact ih.1 hr2
    · intro hs
      have hs2 : s.phase = .stopped := hs
      rw [hph] at hs2
      exact absurd hs2 (by simp)
  | settle id h1 h2 =>
    constructor
    · intro hr
      have hr2 : s.stopCall = .returned := hr
      exact ih.1 hr2
    · intro hs
      have hs2 : s.phase = .stopped := hs
      rw [h1] at hs2
      exact absurd hs2 (by simp)
  | invoke hc =>
    by_cases hs : s.phase = .stopped
    · constructor
      · intro _
        show (stopInvokeEffect s).phase = .stopped
        simp [stopInvokeEffect, hs]
      · intro _
        show (stopInvokeEffect s).pending = []
        simp only [stopInvokeEffect, hs, if_pos]
        exact ih.2 hs
    · constructor
      · intro hr
        have hr2 : (stopInvokeEffect s).stopCall = .returned := hr
        simp [stopInvokeEffect, hs] at hr2
      · intro hp
        have hp2 : (stopInvokeEffect s).phase = .stopped := hp
        simp [stopInvokeEffect, hs] at hp2
  | observe hd =>
    constructor
    · intro hr
      have hr2 : s.stopCall = .returned := hr
      have := ih.1 hr2
      rw [hd] at this
      exact absurd this (by simp)
    · intro _
      rfl
  | ret h1 h2 =>
    exact ⟨fun _ => h2, fun _ => ih.2 h2⟩

theorem stopInv_reachable (p0 : List Nat) (s : StopSys) (hr : StopReach p0 s) :
    (s.stopCall = .returned → s.phase = .stopped)
    ∧ (s.phase = .stopped → s.pending = []) := by
  induction hr with
  | refl => simp [stopInit]
  | tail _ hstep ih => exact stopInv_step _ _ ih hstep

/-- C7 (spec-modelled): invoking `stop()` on a non-Stopped engine publishes
exactly one stop control message to the response destination, marks the
engine draining and leaves the invocation waiting; `stop()` returns only
once the loop has reached Stopped, at which point no PendingCall remains;
and invoking `stop()` on an already-Stopped engine is a no-op that only
returns (no message published, nothing else changed). -/
theorem C7_stop_protocol (p0 : List Nat) (s : StopSys) (hr : StopReach p0 s) :
    (s.phase ≠ .stopped →
        (stopInvokeEffect s).controlPublished = s.controlPublished + 1
        ∧ (stopInvokeEffect s).phase = .draining
        ∧ (stopInvokeEffect s).stopCall = .waiting)
    ∧ (s.stopCall = .returned → s.phase = .stopped ∧ s.pending = [])
    ∧ (s.phase = .stopped → stopInvokeEffect s = { s with stopCall := .returned }) := by
  have inv := stopInv_reachable p0 s hr
  refine ⟨?_, ?_, ?_⟩
  · intro hs
    refine ⟨?_, ?_, ?_⟩ <;> simp [stopInvokeEffect, hs]
  · intro hr2
    have hph := inv.1 hr2
    exact ⟨hph, inv.2 hph⟩
  · intro hs
    simp [stopInvokeEffect, hs]

/-- Engine with the one outstanding call 5 after `stop()` was invoked. -/
def stopW1 : StopSys := stopInvokeEffect (stopInit [5])

/-- ... after the loop observed the stop control message. -/
def stopW2 : StopSys := loopObserveStopEffect stopW1

/-- ... after `stop()` returned. -/
def stopW3 : StopSys := { stopW2 with stopCall := .returned }

theorem reach_stopW3 : StopReach [5] stopW3 :=
  Relation.ReflTransGen.tail
    (Relation.ReflTransGen.tail
      (Relation.ReflTransGen.tail Relation.ReflTransGen.refl
        (StopStep.invoke (stopInit [5]) rfl))
      (StopStep.observe stopW1 rfl))
    (StopStep.ret stopW2 rfl rfl)

/-- Witness for C7: one outstanding call, then invoke, observe, return. -/
theorem C7_witness :
    (stopW3.phase ≠ .stopped →
        (stopInvokeEffect stopW3).controlPublished = stopW3.controlPublished + 1
        ∧ (stopInvokeEffect stopW3).phase = .draining
        ∧ (stopInvokeEffect stopW3).stopCall = .waiting)
    ∧ (stopW3.stopCall = .returned → stopW3.phase = .stopped ∧ stopW3.pending = [])
    ∧ (stopW3.phase = .stopped →
        stopInvokeEffect stopW3 = { stopW3 with stopCall := .returned }) :=
  C7_stop_protocol [5] stopW3 reach_stopW3

/-! ## Claim C9: Funnel mutual exclusion (spec-modelled) -/

theorem aupdate_id_of_not_mem {κ α : Type} [DecidableEq κ] {l : List (κ × α)} {k : κ}
    (h : k ∉ l.map Prod.fst) (f : α → α) : aupdate l k f = l := by
  induction l with
  | nil => rfl
  | cons p rest ih =>
    simp only [List.map_cons, List.mem_cons] at h
    push_neg at h
    rw [aupdate_cons, if_neg (fun hc => h.1 hc.symm), ih h.2]

theorem runCount_cons (p : Nat × OpPhase) (l : List (Nat × OpPhase)) :
    ((p :: l).filter (fun q => isRunningPh q.2)).length
      = (if isRunningPh p.2 then 1 else 0)
        + (l.filter (fun q => isRunningPh q.2)).length := by
  cases hb : isRunningPh p.2 <;> simp [List.filter_cons, hb] <;> omega

theorem runCount_wait_to_run (l : List (Nat × OpPhase)) (i t : Nat)
    (hn : (l.map Prod.fst).Nodup) (hl : alookup l i = some .waitingPh) :
    ((aupdate l i (fun _ => .runningPh t)).filter (fun q => isRunningPh q.2)).length
      = (l.filter (fun q => isRunningPh q.2)).length + 1 := by
  induction l with
  | nil => simp [alookup] at hl
  | cons p rest ih =>
    simp only [List.map_cons, List.nodup_cons] at hn
    rw [aupdate_cons]
    by_cases hp : p.1 = i
    · simp only [alookup, hp, if_pos rfl] at hl
      have hw : p.2 = .waitingPh := by injection hl
      have hrest : aupdate rest i (fun _ => OpPhase.runningPh t) = rest := by
        refine aupdate_id_of_not_mem ?_ _
        rw [← hp]
        exact hn.1
      rw [if_pos hp, hrest, runCount_cons, runCount_cons, hw]
      simp [isRunningPh]
      omega
    · simp only [alookup, hp, if_neg] at hl
      rw [if_neg hp, runCount_cons, runCount_cons, ih hn.2 hl]
      omega

theorem runCount_run_to_done (l : List (Nat × OpPhase)) (i st ft : Nat)
    (hn : (l.map Prod.fst).Nodup) (hl : alookup l i = some (.runningPh st)) :
    ((aupdate l i (fun _ => .donePh st ft)).filter (fun q => isRunningPh q.2)).length + 1
      = (l.filter (fun q => isRunningPh q.2)).length := by
  induction l with
  | nil => simp [alookup] at hl
  | cons p rest ih =>
    simp only [List.map_cons, List.nodup_cons] at hn
    rw [aupdate_cons]
    by_cases hp : p.1 = i
    · simp only [alookup, hp, if_pos rfl] at hl
      have hw : p.2 = .runningPh st := by injection hl
      have hrest : aupdate rest i (fun _ => OpPhase.donePh st ft) = rest := by
        refine aupdate_id_of_not_mem ?_ _
        rw [← hp]
        exact hn.1
      rw [if_pos hp, hrest, runCount_cons, runCount_cons, hw]
      simp [isRunningPh]
      omega
    · simp only [alookup, hp, if_neg] at hl
      rw [if_neg hp, runCount_cons, runCount_cons, ← ih hn.2 hl]
      omega

theorem runCount_pos_of_mem {l : List (Nat × OpPhase)} {p : Nat × OpPhase}
    (hp : p ∈ l) (hr : isRunningPh p.2 = true) :
    1 ≤ (l.filter (fun q => isRunningPh q.2)).length := by
  have : p ∈ l.filter (fun q => isRunningPh q.2) := List.mem_filter.mpr ⟨hp, hr⟩
  exact List.length_pos.mpr (List.ne_nil_of_mem this)

/-- Modelled from the spec: the Funnel invariant — the concurrency gate
never admits more than `c` simultaneous executions, every recorded timestamp
is at most the clock, and with `c = 1` execution intervals are disjoint: of
two started operations, the earlier-started one has finished strictly before
the later one started. -/
structure FunnelInv (c : Nat) (s : FunnelSys) : Prop where
  conc : s.concurrency = c
  keysNodup : (s.ops.map Prod.fst).Nodup
  startBound : ∀ p ∈ s.ops, ∀ t, startOf p.2 = some t → t ≤ s.clock
  endBound : ∀ p ∈ s.ops, ∀ t, endOf p.2 = some t → t ≤ s.clock
  countLe : countRunning s ≤ c
  mutex : c = 1 → ∀ p ∈ s.ops, ∀ q ∈ s.ops, ∀ sp sq,
      startOf p.2 = some sp → startOf q.2 = some sq → sp < sq →
      ∃ fp, endOf p.2 = some fp ∧ fp < sq

theorem map_fst_pairs (l : List Nat) (ph : OpPhase) :
    (l.map (fun i => (i, ph))).map Prod.fst = l := by
  induction l with
  | nil => rfl
  | cons x xs ih => simp only [List.map_cons, ih]

theorem funnelInv_init (N c : Nat) : FunnelInv c (funnelInit N c) := by
  refine ⟨rfl, ?_, ?_, ?_, ?_, ?_⟩
  · show ((List.map (fun i => (i, OpPhase.waitingPh)) (List.range N)).map
      Prod.fst).Nodup
    rw [map_fst_pairs]
    exact List.nodup_range N
  · intro p hp t ht
    simp [funnelInit] at hp
    obtain ⟨i, -, hi⟩ := hp
    rw [← hi] at ht
    simp [startOf] at ht
  · intro p hp t ht
    simp [funnelInit] at hp
    obtain ⟨i, -, hi⟩ := hp
    rw [← hi] at ht
    simp [endOf] at ht
  · have : countRunning (funnelInit N c) = 0 := by
      simp only [countRunning, List.length_eq_zero, List.filter_eq_nil]
      intro p hp
      simp [funnelInit] at hp
      obtain ⟨i, -, hi⟩ := hp
      rw [← hi]
      simp [isRunningPh]
    omega
  · intro _ p hp q hq sp sq hsp hsq hlt
    simp [funnelInit] at hp
    obtain ⟨i, -, hi⟩ := hp
    rw [← hi] at hsp
    simp [startOf] at hsp

theorem funnelInv_step (c : Nat) (s s2 : FunnelSys) (inv : FunnelInv c s)
    (h : FunnelStep s s2) : FunnelInv c s2 := by
  cases h with
  | tick =>
    refine ⟨inv.conc, inv.keysNodup, ?_, ?_, inv.countLe, inv.mutex⟩
    · intro p hp t ht
      have hb := inv.startBound p hp t ht
      show t ≤ s.clock + 1
      omega
    · intro p hp t ht
      have hb := inv.endBound p hp t ht
      show t ≤ s.clock + 1
      omega
  | admitOp i h1 h2 =>
    have hzero1 : countRunning s < c := by rw [← inv.conc]; exact h2
    refine ⟨inv.conc, ?_, ?_, ?_, ?_, ?_⟩
    · show ((aupdate s.ops i fun _ => OpPhase.runningPh (s.clock + 1)).map
        Prod.fst).Nodup
      rw [aupdate_map_fst]
      exact inv.keysNodup
    · intro p' hp' t ht
      obtain ⟨q, hq, hgq⟩ := List.mem_map.mp hp'
      show t ≤ s.clock + 1
      by_cases hqi : q.1 = i
      · rw [if_pos hqi] at hgq
        rw [← hgq] at ht
        simp [startOf] at ht
        omega
      · rw [if_neg hqi] at hgq
        rw [← hgq] at ht
        have := inv.startBound q hq t ht
        omega
    · intro p' hp' t ht
      obtain ⟨q, hq, hgq⟩ := List.mem_map.mp hp'
      show t ≤ s.clock + 1
      by_cases hqi : q.1 = i
      · rw [if_pos hqi] at hgq
        rw [← hgq] at ht
        simp [endOf] at ht
      · rw [if_neg hqi] at hgq
        rw [← hgq] at ht
        have := inv.endBound q hq t ht
        omega
    · show ((aupdate s.ops i fun _ => OpPhase.runningPh (s.clock + 1)).filter
        (fun q => isRunningPh q.2)).length ≤ c
      rw [runCount_wait_to_run s.ops i (s.clock + 1) inv.keysNodup h1]
      have : countRunning s
          = (s.ops.filter (fun q => isRunningPh q.2)).length := rfl
      omega
    · intro hc p' hp' q' hq' sp sq hsp hsq hlt
      have hzero : countRunning s = 0 := by omega
      obtain ⟨p, hp, hgp⟩ := List.mem_map.mp hp'
      obtain ⟨q, hq, hgq⟩ := List.mem_map.mp hq'
      by_cases hpi : p.1 = i <;> by_cases hqi : q.1 = i
      · rw [if_pos hpi] at hgp
        rw [if_pos hqi] at hgq
        rw [← hgp] at hsp
        rw [← hgq] at hsq
        simp [startOf] at hsp hsq
        omega
      · rw [if_pos hpi] at hgp
        rw [if_neg hqi] at hgq
        rw [← hgp] at hsp
        rw [← hgq] at hsq
        simp [startOf] at hsp
        have := inv.startBound q hq sq hsq
        omega
      · rw [if_neg hpi] at hgp
        rw [if_pos hqi] at hgq
        rw [← hgq] at hsq
        simp [startOf] at hsq
        cases hp2 : p.2 with
        | waitingPh =>
          rw [← hgp, hp2] at hsp
          simp [startOf] at hsp
        | runningPh t0 =>
          have hpos := runCount_pos_of_mem hp (by rw [hp2]; rfl)
          have : countRunning s
              = (s.ops.filter (fun q => isRunningPh q.2)).length := rfl
          omega
        | donePh a b =>
          have hfin : endOf p.2 = some b := by rw [hp2]; rfl
          have hble := inv.endBound p hp b hfin
          refine ⟨b, ?_, ?_⟩
          · rw [← hgp]
            exact hfin
          · omega
      · rw [if_neg hpi] at hgp
        rw [if_neg hqi] at hgq
        rw [← hgp] at hsp ⊢
        rw [← hgq] at hsq
        exact inv.mutex hc p hp q hq sp sq hsp hsq hlt
  | finishOp i st hl =>
    have hmem : (i, OpPhase.runningPh st) ∈ s.ops := alookup_eq_some_mem hl
    have hstle : st ≤ s.clock :=
      inv.startBound (i, OpPhase.runningPh st) hmem st rfl
    refine ⟨inv.conc, ?_, ?_, ?_, ?_, ?_⟩
    · show ((aupdate s.ops i fun _ => OpPhase.donePh st (s.clock + 1)).map
        Prod.fst).Nodup
      rw [aupdate_map_fst]
      exact inv.keysNodup
    · intro p' hp' t ht
      obtain ⟨q, hq, hgq⟩ := List.mem_map.mp hp'
      show t ≤ s.clock + 1
      by_cases hqi : q.1 = i
      · rw [if_pos hqi] at hgq
        rw [← hgq] at ht
        simp [startOf] at ht
        omega
      · rw [if_neg hqi] at hgq
        rw [← hgq] at ht
        have := inv.startBound q hq t ht
        omega
    · intro p' hp' t ht
      obtain ⟨q, hq, hgq⟩ := List.mem_map.mp hp'
      show t ≤ s.clock + 1
      by_cases hqi : q.1 = i
      · rw [if_pos hqi] at hgq
        rw [← hgq] at ht
        simp [endOf] at ht
        omega
      · rw [if_neg hqi] at hgq
        rw [← hgq] at ht
        have := inv.endBound q hq t ht
        omega
    · show ((aupdate s.ops i fun _ => OpPhase.donePh st (s.clock + 1)).filter
        (fun q => isRunningPh q.2)).length ≤ c
      have hcnt := runCount_run_to_done s.ops i st (s.clock + 1) inv.keysNodup hl
      have h2 : countRunning s
          = (s.ops.filter (fun q => isRunningPh q.2)).length := rfl
      have h3 := inv.countLe
      omega
    · intro hc p' hp' q' hq' sp sq hsp hsq hlt
      obtain ⟨p, hp, hgp⟩ := List.mem_map.mp hp'
      obtain ⟨q, hq, hgq⟩ := List.mem_map.mp hq'
      by_cases hpi : p.1 = i <;> by_cases hqi : q.1 = i
      · rw [if_pos hpi] at hgp
        rw [if_pos hqi] at hgq
        rw [← hgp] at hsp
        rw [← hgq] at hsq
        simp [startOf] at hsp hsq
        omega
      · rw [if_pos hpi] at hgp
        rw [if_neg hqi] at hgq
        rw [← hgp] at hsp
        rw [← hgq] at hsq
        simp [startOf] at hsp
        obtain ⟨fp, hfp, -⟩ :=
          inv.mutex hc (i, OpPhase.runningPh st) hmem q hq st sq rfl hsq (by omega)
        simp [endOf] at hfp
      · rw [if_neg hpi] at hgp
        rw [if_pos hqi] at hgq
        rw [← hgq] at hsq
        simp [startOf] at hsq
        rw [← hgp] at hsp ⊢
        obtain ⟨fp, hfp, hfplt⟩ :=
          inv.mutex hc p hp (i, OpPhase.runningPh st) hmem sp st hsp rfl (by omega)
        exact ⟨fp, hfp, by omega⟩
      · rw [if_neg hpi] at hgp
        rw [if_neg hqi] at hgq
        rw [← hgp] at hsp ⊢
        rw [← hgq] at hsq
        exact inv.mutex hc p hp q hq sp sq hsp hsq hlt

theorem funnelInv_reachable (N c : Nat) (s : FunnelSys) (hr : FunnelReach N c s) :
    FunnelInv c s := by
  induction hr with
  | refl => exact funnelInv_init N c
  | tail _ hstep ih => exact funnelInv_step c _ _ ih hstep

/-- C9 (spec-modelled): a Funnel admitting N simultaneously submitted
operations never lets more than the configured concurrency limit execute at
once, and with concurrency = 1 no two execution intervals overlap: of any
two started operations, the one started earlier finished strictly before
the other started (so, sorted by start, each start strictly exceeds the
previous end). -/
theorem C9_funnel_mutual_exclusion (N c : Nat) (s : FunnelSys)
    (hr : FunnelReach N c s) :
    countRunning s ≤ c
    ∧ (c = 1 → ∀ p ∈ s.ops, ∀ q ∈ s.ops, ∀ sp sq,
        startOf p.2 = some sp → startOf q.2 = some sq → sp < sq →
        ∃ fp, endOf p.2 = some fp ∧ fp < sq) := by
  have inv := funnelInv_reachable N c s hr
  exact ⟨inv.countLe, inv.mutex⟩

/-- Two operations through a concurrency-1 Funnel: 0 admitted. -/
def funnelW1 : FunnelSys := admitEffect (funnelInit 2 1) 0

/-- ... 0 finished. -/
def funnelW2 : FunnelSys := finishEffect funnelW1 0 1

/-- ... 1 admitted only afterwards. -/
def funnelW3 : FunnelSys := admitEffect funnelW2 1

theorem reach_funnelW3 : FunnelReach 2 1 funnelW3 :=
  Relation.ReflTransGen.tail
    (Relation.ReflTransGen.tail
      (Relation.ReflTransGen.tail Relation.ReflTransGen.refl
        (FunnelStep.admitOp (funnelInit 2 1) 0 (by decide) (by decide)))
      (FunnelStep.finishOp funnelW1 0 1 (by decide)))
    (FunnelStep.admitOp funnelW2 1 (by decide) (by decide))

/-- Witness for C9 at the state where both operations went through. -/
theorem C9_witness :
    countRunning funnelW3 ≤ 1
    ∧ (1 = 1 → ∀ p ∈ funnelW3.ops, ∀ q ∈ funnelW3.ops, ∀ sp sq,
        startOf p.2 = some sp → startOf q.2 = some sq → sp < sq →
        ∃ fp, endOf p.2 = some fp ∧ fp < sq) :=
  C9_funnel_mutual_exclusion 2 1 funnelW3 reach_funnelW3
